import Mathlib

/-! Verification of the weekly-plan reconciliation engine of
    readtheweek.py: a shallow embedding of the item classifiers, the
    time resolution, and the reconciliation loop of createtask, with
    theorems settling the specification claims.

    Conventions of the embedding:
    * Timestamps are minutes on a single integer timeline; day number d
      covers minutes 1440*d to 1440*d + 1439, and day 0 is a Monday, so
      the weekday index in Python convention (Monday = 0) of day d is
      d mod 7.
    * Python strings are List Char; Python scalar values are Scalar.
    * The Google Tasks / Calendar backends are modelled as an in-memory
      RemoteState; a window query returns the events whose span meets
      the closed interval of the query bounds.  How the backend
      interprets the serialized bound strings is outside the repository;
      all timestamps are read on the single model timeline.
-/

namespace ReadTheWeek

/-- Decimal digit test: the regex class \d as used by the script's
    ASCII patterns. -/
def isDig (c : Char) : Bool := '0' ≤ c && c ≤ '9'

/-- Python regex whitespace class \s over the characters relevant to
    plain text. -/
def isWs (c : Char) : Bool :=
  c = ' ' || c = '\t' || c = '\n' || c = '\r' || c = '\x0b' || c = '\x0c'

/-- Numeric value of a decimal digit character. -/
def digToNat (c : Char) : Nat := c.toNat - '0'.toNat

/-- Numeric value of a decimal digit string, as Python int() reads a
    group of digits. -/
def digitsVal (l : List Char) : Nat :=
  l.foldl (fun a c => 10 * a + digToNat c) 0

/-- Stage one of the pattern (\d 1 to 2):(\d 2): the greedy match of
    one or two digits followed by a literal colon; returns the hour
    value and the rest of the input. -/
def splitHour : List Char → Option (Nat × List Char)
  | c1 :: c2 :: rest =>
    if isDig c1 then
      if isDig c2 then
        match rest with
        | c3 :: r =>
          if c3 = ':' then some (10 * digToNat c1 + digToNat c2, r) else none
        | [] => none
      else if c2 = ':' then some (digToNat c1, rest)
      else none
    else none
  | _ => none

/-- Stage two: exactly two digits for the minute group. -/
def splitMin : List Char → Option (Nat × List Char)
  | c1 :: c2 :: rest =>
    if isDig c1 && isDig c2 then some (10 * digToNat c1 + digToNat c2, rest)
    else none
  | _ => none

/-- Drop the maximal run of regex whitespace. -/
def skipWs : List Char → List Char
  | [] => []
  | c :: rest => if isWs c then skipWs rest else c :: rest

/-- Stage three, the part \s*- of the pattern: since - is not
    whitespace, the greedy whitespace run must end exactly at the
    dash. -/
def afterDash (s : List Char) : Option (List Char) :=
  match skipWs s with
  | c :: r => if c = '-' then some r else none
  | [] => none

/-- Remove one trailing newline, if present: the Python anchor $ also
    matches just before a newline that ends the string. -/
def stripNl : List Char → List Char
  | [] => []
  | c :: rest =>
    if rest.isEmpty = true ∧ c = '\n' then [] else c :: stripNl rest

/-- Match of (.+)$ at the current position: some nonempty newline-free
    text, followed by the end of input or one final newline. -/
def tailTitle (r : List Char) : Option (List Char) :=
  let t := stripNl r
  if !t.isEmpty && !t.contains '\n' then some t else none

/-- Stage four, the part \s*(.+)$ of the pattern: the whitespace star
    is greedy, and gives characters back one by one if the tail fails
    to match, exactly as the backtracking engine does. -/
def wsTail : List Char → Option (List Char)
  | [] => none
  | c :: rest =>
    if isWs c then
      match wsTail rest with
      | some t => some t
      | none => tailTitle (c :: rest)
    else tailTitle (c :: rest)

/-- Embedding of re.match applied to the time pattern of the script,
    with groups hour value, minute value, and remainder title. -/
def matchHHMM (s : List Char) : Option (Nat × Nat × List Char) :=
  match splitHour s with
  | none => none
  | some (h, r1) =>
    match splitMin r1 with
    | none => none
    | some (m, r2) =>
      match afterDash r2 with
      | none => none
      | some r3 =>
        match wsTail r3 with
        | none => none
        | some t => some (h, m, t)

/-- All characters are decimal digits. -/
def IsDigits (l : List Char) : Prop := ∀ c ∈ l, isDig c = true

/-- All characters are regex whitespace. -/
def IsWsList (l : List Char) : Prop := ∀ c ∈ l, isWs c = true

/-- Declarative reading of the time pattern with its anchors: the
    string is one or two digits, a colon, exactly two digits, optional
    whitespace, a dash, optional whitespace, a nonempty newline-free
    title, and at most one final newline; h and m are the values of the
    digit groups. -/
def TimeShape (s : List Char) (h m : Nat) (t : List Char) : Prop :=
  ∃ hd md w1 w2 e,
    s = hd ++ ':' :: (md ++ (w1 ++ '-' :: (w2 ++ t ++ e))) ∧
    IsDigits hd ∧ (hd.length = 1 ∨ hd.length = 2) ∧
    IsDigits md ∧ md.length = 2 ∧
    IsWsList w1 ∧ IsWsList w2 ∧
    t ≠ [] ∧ '\n' ∉ t ∧ (e = [] ∨ e = ['\n']) ∧
    digitsVal hd = h ∧ digitsVal md = m

/-- Python scalar values appearing in the parsed YAML plan: strings,
    integers, floats (modelled exactly as rationals; the plan values
    the claims exercise are exactly representable), and None. -/
inductive Scalar where
  | str (s : List Char)
  | int (n : Int)
  | float (q : ℚ)
  | pynone
  deriving DecidableEq, Repr

/-- Decimal rendering of a Python int by str(). -/
def intChars (n : Int) : List Char :=
  if n < 0 then '-' :: Nat.toDigits 10 n.natAbs else Nat.toDigits 10 n.natAbs

/-- Rendering of a Python float by str().  The claims never compare or
    store a float-rendered title, so the shortest round-trip decimal
    form of CPython is not replayed digit for digit; the rendering is
    kept injective on the rational value. -/
def floatChars (q : ℚ) : List Char :=
  intChars q.num ++ '/' :: Nat.toDigits 10 q.den

/-- Python str() on a scalar. -/
def pyStr : Scalar → List Char
  | .str s => s
  | .int n => intChars n
  | .float q => floatChars q
  | .pynone => "None".toList

/-- Python truthiness of a scalar. -/
def pyTruthy : Scalar → Bool
  | .str s => !s.isEmpty
  | .int n => n != 0
  | .float q => q != 0
  | .pynone => false

/-- Strip regex whitespace from both ends, as Python int() does on a
    string argument. -/
def trimWsL (s : List Char) : List Char :=
  ((s.dropWhile isWs).reverse.dropWhile isWs).reverse

/-- Python int() on a string: optional surrounding whitespace, an
    optional sign, then decimal digits; anything else raises
    ValueError, modelled as none. -/
def parseIntChars (s : List Char) : Option Int :=
  match trimWsL s with
  | [] => none
  | '+' :: ds =>
    if !ds.isEmpty && ds.all isDig then some (digitsVal ds : Int) else none
  | '-' :: ds =>
    if !ds.isEmpty && ds.all isDig then some (-(digitsVal ds : Int)) else none
  | ds => if ds.all isDig then some (digitsVal ds : Int) else none

/-- Truncation toward zero, the conversion Python int() applies to a
    float. -/
def ratTrunc (q : ℚ) : Int := if q < 0 then ⌈q⌉ else ⌊q⌋

/-- Python int() over the scalar values: identity on ints, truncation
    on floats, decimal parse on strings, TypeError (none) on None. -/
def pyInt : Scalar → Option Int
  | .int n => some n
  | .float q => some (ratTrunc q)
  | .str s => parseIntChars s
  | .pynone => none

/-- Embedding of parse_item_with_time of readtheweek.py.  A string is
    matched against the time pattern; an in-range match yields the
    remainder title, the time, and the timed flag; an out-of-range
    match or no match yields the whole original string untimed.  The
    lower bounds 0 of the range test of the source hold trivially over
    Nat.  A non-string input falls through to str() untimed. -/
def parse_item_with_time (v : Scalar) :
    List Char × Option (Nat × Nat) × Bool :=
  match v with
  | .str s =>
    match matchHHMM s with
    | some (h, m, t) =>
      if h ≤ 23 && m ≤ 59 then (t, some (h, m), true)
      else (s, none, false)
    | none => (s, none, false)
  | _ => (pyStr v, none, false)

/-- Raw activity entries of the plan: either a scalar (the string
    form), or a structured record with the optional keys item, title,
    time and duration; a field holds none when the key is absent. -/
inductive ActItem where
  | scalar (v : Scalar)
  | record (item : Option Scalar) (title : Option Scalar)
      (timef : Option Scalar) (durf : Option Scalar)
  deriving DecidableEq, Repr

/-- Embedding of the time-field handling in the record branch of
    parse_activity_with_time: a falsy or absent field takes the
    default; a truthy string is split on the colon into exactly two
    int() parts with the range test; a failing split, parse or range
    test (ValueError) and a non-string truthy value (AttributeError on
    split) fall back to the default. -/
def timeField (v : Option Scalar) (dflt : Option (Nat × Nat)) :
    Option (Nat × Nat) :=
  match v with
  | some u =>
    if pyTruthy u then
      match u with
      | .str s =>
        match s.splitOn ':' with
        | [a, b] =>
          match parseIntChars a, parseIntChars b with
          | some h, some m =>
            if 0 ≤ h && h ≤ 23 && 0 ≤ m && m ≤ 59 then
              some (h.toNat, m.toNat)
            else dflt
          | _, _ => dflt
        | _ => dflt
      | _ => dflt
    else dflt
  | none => dflt

/-- Embedding of the duration handling in the record branch of
    parse_activity_with_time: int() of the field value (or of the
    default when the key is absent); values outside the range
    0 exclusive to 1440 inclusive, and values int() rejects, fall back
    to the default. -/
def durationField (v : Option Scalar) (dflt : Int) : Int :=
  match pyInt (v.getD (.int dflt)) with
  | some n => if n ≤ 0 || 1440 < n then dflt else n
  | none => dflt

/-- Embedding of parse_activity_with_time of readtheweek.py. -/
def parse_activity_with_time (v : ActItem) (default_time : Option (Nat × Nat))
    (default_duration : Int) : Scalar × Option (Nat × Nat) × Int :=
  match v with
  | .record item title timef durf =>
    (item.getD (title.getD (.str ("Untitled".toList))),
     timeField timef default_time,
     durationField durf default_duration)
  | .scalar u =>
    match matchHHMM (pyStr u) with
    | some (h, m, t) =>
      if h ≤ 23 && m ≤ 59 then (.str t, some (h, m), default_duration)
      else (.str (pyStr u), default_time, default_duration)
    | none => (.str (pyStr u), default_time, default_duration)

example :
    parse_item_with_time (.str ("14:30 - Pay rent".toList)) =
      ("Pay rent".toList, some (14, 30), true) := by decide

example :
    parse_item_with_time (.str ("Pay rent".toList)) =
      ("Pay rent".toList, none, false) := by decide

example :
    parse_item_with_time (.str ("99:99 - Bad".toList)) =
      ("99:99 - Bad".toList, none, false) := by decide

example : durationField (some (.int 5000)) 120 = 120 := by decide

example : durationField (some (.int 0)) 120 = 120 := by decide

example : durationField (some (.float (11 / 2))) 120 = 5 := by
  norm_num [durationField, pyInt, ratTrunc]

/-- Day number of a timestamp in minutes (floor division, so negative
    timestamps also land on the correct day). -/
def dayFloor (t : Int) : Int := Int.fdiv t 1440

/-- First minute of the day of a timestamp: replace(hour=0, minute=0)
    of the source. -/
def dayStart (t : Int) : Int := 1440 * dayFloor t

/-- Timestamp of a day number at a time of day in minutes. -/
def combine (d tod : Int) : Int := 1440 * d + tod

/-- Python weekday (Monday = 0) of a timestamp, with day 0 of the model
    timeline a Monday. -/
def weekdayOf (t : Int) : Int := dayFloor t % 7

/-- Embedding of the past-push step the source repeats on the timed
    task, meal and activity paths: if the resolved datetime is strictly
    before now, add exactly seven days, once. -/
def pushIfPast (dt now : Int) : Int := if dt < now then dt + 10080 else dt

/-- Embedding of the days-ahead computation of createtask: the
    difference of weekday indices, lifted by 7 when negative. -/
def daysAhead (target current : Int) : Int :=
  let d := target - current
  if d < 0 then d + 7 else d

/-- Anchor day number for a target weekday resolved against now. -/
def resolveAnchor (now target : Int) : Int :=
  dayFloor now + daysAhead target (weekdayOf now)

/-- Character-wise lowering, the day and field key normalization of the
    source. -/
def toLowerL (s : List Char) : List Char := s.map Char.toLower

/-- The day_map of createtask. -/
def dayMap (s : List Char) : Option Int :=
  if s = "monday".toList then some 0
  else if s = "tuesday".toList then some 1
  else if s = "wednesday".toList then some 2
  else if s = "thursday".toList then some 3
  else if s = "friday".toList then some 4
  else if s = "saturday".toList then some 5
  else if s = "sunday".toList then some 6
  else none

/-- A task of the My Stuff list: title and optional due datetime (the
    serialized form of the source is modelled by the datetime value
    itself). -/
structure Task where
  title : List Char
  due : Option Int
  deriving DecidableEq, Repr

/-- A calendar event: summary and its span on the timeline. -/
structure Event where
  summary : Scalar
  start : Int
  stop : Int
  deriving DecidableEq, Repr

/-- The external state both sinks persist: the titles of the task
    lists, the tasks of the My Stuff list, and the events of each
    calendar, keyed by calendar id. -/
structure RemoteState where
  taskListTitles : List (List Char)
  tasks : List Task
  cal : List Char → List Event

/-- The statistics record createtask accumulates and returns. -/
structure Stats where
  tasks : Nat
  timed_tasks : Nat
  meals : Nat
  activities : Nat
  skipped : Nat
  deriving DecidableEq, Repr

def zeroStats : Stats := ⟨0, 0, 0, 0, 0⟩

def addTaskS (st : Stats) : Stats := { st with tasks := st.tasks + 1 }

def addTimedS (st : Stats) : Stats := { st with timed_tasks := st.timed_tasks + 1 }

def addMealS (st : Stats) : Stats := { st with meals := st.meals + 1 }

def addActS (st : Stats) : Stats := { st with activities := st.activities + 1 }

def addSkipS (st : Stats) : Stats := { st with skipped := st.skipped + 1 }

/-- The calendar id string primary. -/
def primaryCal : List Char := "primary".toList

/-- An event meets a closed query window when its span intersects it. -/
def overlaps (e : Event) (lo hi : Int) : Bool :=
  decide (lo ≤ e.stop) && decide (e.start ≤ hi)

/-- The events a window query on a calendar returns. -/
def findInWindow (s : RemoteState) (cid : List Char) (lo hi : Int) :
    List Event :=
  (s.cal cid).filter (fun e => overlaps e lo hi)

/-- Display title of a timed task: the clock-marker character and a
    space in front of the parsed title. -/
def timedDisplay (t : List Char) : List Char := '⏰' :: ' ' :: t

/-- The duplicate test the source performs after a window query: some
    returned event carries exactly the candidate summary. -/
def eventExistsIn (s : RemoteState) (cid : List Char) (lo hi : Int)
    (sum : Scalar) : Bool :=
  (findInWindow s cid lo hi).any (fun e => decide (e.summary = sum))

def insertEvent (s : RemoteState) (cid : List Char) (e : Event) :
    RemoteState :=
  { s with cal := fun c => if c = cid then e :: s.cal c else s.cal c }

def insertTask (s : RemoteState) (t : Task) : RemoteState :=
  { s with tasks := t :: s.tasks }

/-- Lower bound of the one-day duplicate window of the timed-task and
    meal paths. -/
def dayWinLo (dt : Int) : Int := dayStart dt

/-- Upper bound of the one-day duplicate window: midnight of the next
    day. -/
def dayWinHi (dt : Int) : Int := dayStart dt + 1440

/-- Upper bound of the activity duplicate window: 23:59 of the next
    day, as combined in the source. -/
def actWinHi (dt : Int) : Int := dayStart dt + 1440 + 1439

/-- Per-run context: the resolution-time now, the food calendar id, the
    snapshot of My Stuff task titles fetched once before the loop, and
    the injected item failures (day index, category 0 things 1 meals 2
    activities, item index). -/
structure Ctx where
  now : Int
  foodCal : List Char
  titles0 : List (List Char)
  fails : Nat → Nat → Nat → Bool

/-- State a run threads through the loop: the statistics and the
    remote state. -/
structure RunSt where
  stats : Stats
  remote : RemoteState

/-- The regular-task branch of the things loop.  Evaluating the
    whendue variable while it is unbound raises NameError, modelled as
    none and caught by the item handler; otherwise the task is built,
    the due field attached when whendue is truthy, the duplicate test
    run against the snapshot when the snapshot is nonempty, and the
    task inserted when no duplicate is found. -/
def tryPlain (c : Ctx) (wd : Option (Option Int)) (title : List Char)
    (st : RunSt) : Option RunSt :=
  match wd with
  | none => none
  | some w =>
    if !c.titles0.isEmpty && c.titles0.contains title then
      some { st with stats := addSkipS st.stats }
    else
      some { st with remote := insertTask st.remote ⟨title, w⟩,
                     stats := addTaskS st.stats }

/-- Try-body of the things loop.  A timed item with truthy whendue goes
    to the calendar path: the due datetime is rebuilt at the parsed
    time of day, pushed a week when past, the one-day window queried on
    the primary calendar, and the reminder event created unless an
    event with the marked display title exists.  An unbound whendue
    (NameError) or an absent due datetime (AttributeError on
    None.replace) is an exception, modelled as none. -/
def tryThing (c : Ctx) (due : Option Int) (wd : Option (Option Int))
    (it : Scalar) (st : RunSt) : Option RunSt :=
  match parse_item_with_time it with
  | (title, tm, is_timed) =>
    if is_timed then
      match wd with
      | none => none
      | some none => tryPlain c wd title st
      | some (some _) =>
        match due, tm with
        | some d, some (h, m) =>
          let dt := pushIfPast (combine (dayFloor d) ((h : Int) * 60 + m)) c.now
          if eventExistsIn st.remote primaryCal (dayWinLo dt) (dayWinHi dt)
              (.str (timedDisplay title)) then
            some { st with stats := addSkipS st.stats }
          else
            some { st with
              remote := insertEvent st.remote primaryCal
                ⟨.str (timedDisplay title), dt - 30, dt⟩,
              stats := addTimedS st.stats }
        | _, _ => none
    else tryPlain c wd title st

/-- Try-body of the meal loop for one slot value and its fixed default
    time of day. -/
def tryMeal (c : Ctx) (due : Option Int) (wd : Option (Option Int))
    (v : Scalar) (slotTod : Int) (st : RunSt) : Option RunSt :=
  match wd with
  | none => none
  | some none => some st
  | some (some _) =>
    match due with
    | none => none
    | some d =>
      let dt := pushIfPast (combine (dayFloor d) slotTod) c.now
      if eventExistsIn st.remote c.foodCal (dayWinLo dt) (dayWinHi dt) v then
        some { st with stats := addSkipS st.stats }
      else
        some { st with
          remote := insertEvent st.remote c.foodCal ⟨v, dt, dt + 60⟩,
          stats := addMealS st.stats }

/-- Try-body of the activity loop: classification with default time
    19:00 and default duration 120, the guard on whendue and the
    activity time, the push rule, the wide duplicate window on the
    primary calendar, and creation of the block of the parsed
    duration. -/
def tryActivity (c : Ctx) (due : Option Int) (wd : Option (Option Int))
    (v : ActItem) (st : RunSt) : Option RunSt :=
  match parse_activity_with_time v (some (19, 0)) 120 with
  | (title, tm, dur) =>
    match wd with
    | none => none
    | some none => some st
    | some (some _) =>
      match tm with
      | none => some st
      | some (h, m) =>
        match due with
        | none => none
        | some d =>
          let dt := pushIfPast (combine (dayFloor d) ((h : Int) * 60 + m)) c.now
          if eventExistsIn st.remote primaryCal (dayWinLo dt) (actWinHi dt)
              title then
            some { st with stats := addSkipS st.stats }
          else
            some { st with
              remote := insertEvent st.remote primaryCal ⟨title, dt, dt + dur⟩,
              stats := addActS st.stats }

/-- One things item with the item-level exception handler: an injected
    sink failure or an exception of the try-body is logged and skipped
    over with no change to state or statistics. -/
def doThing (c : Ctx) (due : Option Int) (wd : Option (Option Int))
    (dayIdx idx : Nat) (it : Scalar) (st : RunSt) : RunSt :=
  if c.fails dayIdx 0 idx then st
  else
    match tryThing c due wd it st with
    | some st1 => st1
    | none => st

def doThings (c : Ctx) (due : Option Int) (wd : Option (Option Int))
    (dayIdx idx : Nat) (its : List Scalar) (st : RunSt) : RunSt :=
  match its with
  | [] => st
  | it :: rest =>
    doThings c due wd dayIdx (idx + 1) rest (doThing c due wd dayIdx idx it st)

/-- One meal slot: the presence and truthiness guard of the source sits
    outside the try-block; inside, exceptions are caught as for
    things. -/
def doMeal (c : Ctx) (due : Option Int) (wd : Option (Option Int))
    (dayIdx slotIdx : Nat) (v? : Option Scalar) (slotTod : Int)
    (st : RunSt) : RunSt :=
  match v? with
  | none => st
  | some v =>
    if pyTruthy v then
      if c.fails dayIdx 1 slotIdx then st
      else
        match tryMeal c due wd v slotTod st with
        | some st1 => st1
        | none => st
    else st

def doActivity (c : Ctx) (due : Option Int) (wd : Option (Option Int))
    (dayIdx idx : Nat) (v : ActItem) (st : RunSt) : RunSt :=
  if c.fails dayIdx 2 idx then st
  else
    match tryActivity c due wd v st with
    | some st1 => st1
    | none => st

def doActivities (c : Ctx) (due : Option Int) (wd : Option (Option Int))
    (dayIdx idx : Nat) (its : List ActItem) (st : RunSt) : RunSt :=
  match its with
  | [] => st
  | it :: rest =>
    doActivities c due wd dayIdx (idx + 1) rest
      (doActivity c due wd dayIdx idx it st)

/-- One day of the plan: the four meal slots in the insertion order of
    the times table of the source (breakfast, lunch, dinner, snack)
    with their fixed default clock times. -/
structure DayPlan where
  breakfast : Option Scalar
  lunch : Option Scalar
  dinner : Option Scalar
  snack : Option Scalar
  things : List Scalar
  activity : List ActItem
  deriving DecidableEq, Repr

def doMeals (c : Ctx) (due : Option Int) (wd : Option (Option Int))
    (dayIdx : Nat) (dp : DayPlan) (st : RunSt) : RunSt :=
  let s1 := doMeal c due wd dayIdx 0 dp.breakfast 450 st
  let s2 := doMeal c due wd dayIdx 1 dp.lunch 690 s1
  let s3 := doMeal c due wd dayIdx 2 dp.dinner 1110 s2
  doMeal c due wd dayIdx 3 dp.snack 900 s3

/-- Per-day date resolution of createtask.  For a weekday key the due
    datetime is the anchor date at 20:00 and the whendue variable is
    assigned the same instant; for the allweek key whendue is assigned
    None and the due datetime stays absent; for an unknown key the due
    datetime is reset to absent but the whendue variable is not
    assigned on any path of the source, so it keeps its previous value
    (or stays unbound). -/
def dayDue (now : Int) (key : List Char) (wd : Option (Option Int)) :
    Option Int × Option (Option Int) :=
  let lk := toLowerL key
  if lk = "allweek".toList then (none, some none)
  else
    match dayMap lk with
    | some target =>
      let d := combine (resolveAnchor now target) (20 * 60)
      (some d, some (some d))
    | none => (none, wd)

def doDay (c : Ctx) (dayIdx : Nat) (key : List Char) (dp : DayPlan)
    (wd : Option (Option Int)) (st : RunSt) : Option (Option Int) × RunSt :=
  let p := dayDue c.now key wd
  let st1 := doThings c p.1 p.2 dayIdx 0 dp.things st
  let st2 := doMeals c p.1 p.2 dayIdx dp st1
  let st3 := doActivities c p.1 p.2 dayIdx 0 dp.activity st2
  (p.2, st3)

def doDays (c : Ctx) (dayIdx : Nat) (days : List (List Char × DayPlan))
    (wd : Option (Option Int)) (st : RunSt) : RunSt :=
  match days with
  | [] => st
  | (k, dp) :: rest =>
    let r := doDay c dayIdx k dp wd st
    doDays c (dayIdx + 1) rest r.1 r.2

/-- A week plan: the day keys in document order with their day
    plans. -/
def WeekPlan := List (List Char × DayPlan)

/-- Embedding of createtask of readtheweek.py, from the point where
    authentication and the service builds have succeeded (those are
    collaborator calls).  The empty task-list collection and a missing
    My Stuff list return the zero statistics before any write; then the
    task titles of the My Stuff list are fetched once, the whendue
    variable starts unbound, and the days are processed in order. -/
def createtask (now : Int) (foodCal : List Char)
    (fails : Nat → Nat → Nat → Bool) (plan : WeekPlan) (s : RemoteState) :
    Stats × RemoteState :=
  if s.taskListTitles.isEmpty then (zeroStats, s)
  else if !s.taskListTitles.contains ("My Stuff".toList) then (zeroStats, s)
  else
    let c : Ctx := ⟨now, foodCal, s.tasks.map Task.title, fails⟩
    let r := doDays c 0 plan none ⟨zeroStats, s⟩
    (r.stats, r.remote)

/-- The all-successful failure oracle. -/
def noFail : Nat → Nat → Nat → Bool := fun _ _ _ => false

/-- The same context with no injected failures. -/
def noFailCtx (c : Ctx) : Ctx := ⟨c.now, c.foodCal, c.titles0, noFail⟩

/-- Remove from a list the positions an oracle fails, starting at a
    given index. -/
def dropFailsFrom (f : Nat → Bool) : Nat → List α → List α
  | _, [] => []
  | i, x :: r =>
    if f i then dropFailsFrom f (i + 1) r else x :: dropFailsFrom f (i + 1) r

/-- A day plan with the failing items removed. -/
def filterDay (fails : Nat → Nat → Nat → Bool) (dayIdx : Nat)
    (dp : DayPlan) : DayPlan :=
  { breakfast := if fails dayIdx 1 0 then none else dp.breakfast,
    lunch := if fails dayIdx 1 1 then none else dp.lunch,
    dinner := if fails dayIdx 1 2 then none else dp.dinner,
    snack := if fails dayIdx 1 3 then none else dp.snack,
    things := dropFailsFrom (fails dayIdx 0) 0 dp.things,
    activity := dropFailsFrom (fails dayIdx 2) 0 dp.activity }

/-- A week plan with the failing items removed. -/
def filterPlan (fails : Nat → Nat → Nat → Bool) : Nat → WeekPlan → WeekPlan
  | _, [] => []
  | i, (k, dp) :: rest =>
    (k, filterDay fails i dp) :: filterPlan fails (i + 1) rest

/-- The state-independent outcome of one item's resolution and
    classification: nothing happens (guard failed or exception), or a
    timed reminder, plain task, meal block or activity block is brought
    to the duplicate check. -/
inductive Intent where
  | nothing
  | timedT (title : List Char) (dt : Int)
  | plainT (title : List Char) (w : Option Int)
  | mealT (v : Scalar) (dt : Int)
  | actT (title : Scalar) (dt : Int) (dur : Int)

/-- Intent of one things item, mirroring the branches of tryThing. -/
def thingIntent (now : Int) (due : Option Int) (wd : Option (Option Int))
    (it : Scalar) : Intent :=
  match parse_item_with_time it with
  | (title, tm, is_timed) =>
    if is_timed then
      match wd with
      | none => .nothing
      | some none => .plainT title none
      | some (some _) =>
        match due, tm with
        | some d, some (h, m) =>
          .timedT title
            (pushIfPast (combine (dayFloor d) ((h : Int) * 60 + m)) now)
        | _, _ => .nothing
    else
      match wd with
      | none => .nothing
      | some w => .plainT title w

/-- Intent of one meal slot, mirroring the branches of doMeal and
    tryMeal. -/
def mealIntent (now : Int) (due : Option Int) (wd : Option (Option Int))
    (v? : Option Scalar) (slotTod : Int) : Intent :=
  match v? with
  | none => .nothing
  | some v =>
    if pyTruthy v then
      match wd with
      | none => .nothing
      | some none => .nothing
      | some (some _) =>
        match due with
        | none => .nothing
        | some d => .mealT v (pushIfPast (combine (dayFloor d) slotTod) now)
    else .nothing

/-- Intent of one activity item, mirroring the branches of
    tryActivity. -/
def actIntent (now : Int) (due : Option Int) (wd : Option (Option Int))
    (v : ActItem) : Intent :=
  match parse_activity_with_time v (some (19, 0)) 120 with
  | (title, tm, dur) =>
    match wd with
    | none => .nothing
    | some none => .nothing
    | some (some _) =>
      match tm with
      | none => .nothing
      | some (h, m) =>
        match due with
        | none => .nothing
        | some d =>
          .actT title
            (pushIfPast (combine (dayFloor d) ((h : Int) * 60 + m)) now) dur

/-- Apply one intent to the run state: the duplicate check of its path
    against the current remote state, then skip or create. -/
def applyIntent (c : Ctx) (st : RunSt) : Intent → RunSt
  | .nothing => st
  | .timedT title dt =>
    if eventExistsIn st.remote primaryCal (dayWinLo dt) (dayWinHi dt)
        (.str (timedDisplay title)) then
      { st with stats := addSkipS st.stats }
    else
      { st with
        remote := insertEvent st.remote primaryCal
          ⟨.str (timedDisplay title), dt - 30, dt⟩,
        stats := addTimedS st.stats }
  | .plainT title w =>
    if !c.titles0.isEmpty && c.titles0.contains title then
      { st with stats := addSkipS st.stats }
    else
      { st with remote := insertTask st.remote ⟨title, w⟩,
                stats := addTaskS st.stats }
  | .mealT v dt =>
    if eventExistsIn st.remote c.foodCal (dayWinLo dt) (dayWinHi dt) v then
      { st with stats := addSkipS st.stats }
    else
      { st with
        remote := insertEvent st.remote c.foodCal ⟨v, dt, dt + 60⟩,
        stats := addMealS st.stats }
  | .actT title dt dur =>
    if eventExistsIn st.remote primaryCal (dayWinLo dt) (actWinHi dt)
        title then
      { st with stats := addSkipS st.stats }
    else
      { st with
        remote := insertEvent st.remote primaryCal ⟨title, dt, dt + dur⟩,
        stats := addActS st.stats }

def applyIntents (c : Ctx) : List Intent → RunSt → RunSt
  | [], st => st
  | i :: rest, st => applyIntents c rest (applyIntent c st i)

/-- The intents of one day in processing order: things, then the four
    meal slots, then activities. -/
def dayIntentList (now : Int) (key : List Char) (dp : DayPlan)
    (wd : Option (Option Int)) : List Intent :=
  let p := dayDue now key wd
  dp.things.map (thingIntent now p.1 p.2)
    ++ [mealIntent now p.1 p.2 dp.breakfast 450,
        mealIntent now p.1 p.2 dp.lunch 690,
        mealIntent now p.1 p.2 dp.dinner 1110,
        mealIntent now p.1 p.2 dp.snack 900]
    ++ dp.activity.map (actIntent now p.1 p.2)

/-- The intents of a whole plan, threading the whendue variable across
    the days. -/
def planIntents (now : Int) : List (List Char × DayPlan) →
    Option (Option Int) → List Intent
  | [], _ => []
  | (k, dp) :: rest, wd =>
    dayIntentList now k dp wd ++ planIntents now rest (dayDue now k wd).2

/-- Number of intents that reach a create-or-duplicate decision. -/
def decidedCount : List Intent → Nat
  | [] => 0
  | .nothing :: rest => decidedCount rest
  | _ :: rest => decidedCount rest + 1

/-- Number of plan items the run brings to a create-or-duplicate
    decision; items whose guards fail or whose processing raises are
    not processed to a decision. -/
def processedCount (now : Int) (plan : WeekPlan) : Nat :=
  decidedCount (planIntents now plan none)

/-- The remote state grows: every task and event persists. -/
def SubRemote (s s2 : RemoteState) : Prop :=
  (∀ t ∈ s.tasks, t ∈ s2.tasks) ∧ ∀ cid e, e ∈ s.cal cid → e ∈ s2.cal cid

/-- The duplicate check of an intent succeeds against a remote state
    with the given task-title snapshot. -/
def covered (titles : List (List Char)) (foodCal : List Char)
    (s : RemoteState) : Intent → Prop
  | .nothing => True
  | .timedT title dt =>
    eventExistsIn s primaryCal (dayWinLo dt) (dayWinHi dt)
      (.str (timedDisplay title)) = true
  | .plainT title _ => titles.contains title = true
  | .mealT v dt => eventExistsIn s foodCal (dayWinLo dt) (dayWinHi dt) v = true
  | .actT title dt _ =>
    eventExistsIn s primaryCal (dayWinLo dt) (actWinHi dt) title = true

/-- Durations carried by activity intents are positive (the classifier
    guarantees it). -/
def IntentWF : Intent → Prop
  | .actT _ _ dur => 0 < dur
  | _ => True

lemma dayFloor_eq (t : Int) : dayFloor t = t / 1440 :=
  Int.fdiv_eq_ediv t (by norm_num)

/-- C4: for every weekday name and every now, the anchor equals now's
    date plus the weekday difference mod 7, is never strictly before
    now's date, and equals today's date when the offset is zero. -/
theorem anchor_resolution (now : Int) (nm : List Char) (target : Int)
    (hmap : dayMap nm = some target) :
    resolveAnchor now target =
      dayFloor now + (target - weekdayOf now) % 7 ∧
    dayFloor now ≤ resolveAnchor now target ∧
    (daysAhead target (weekdayOf now) = 0 →
      resolveAnchor now target = dayFloor now) := by
  have hb : 0 ≤ target ∧ target ≤ 6 := by
    unfold dayMap at hmap
    split_ifs at hmap <;> injection hmap with hh <;> omega
  simp only [resolveAnchor, daysAhead, weekdayOf]
  by_cases hlt : target - dayFloor now % 7 < 0
  · simp only [if_pos hlt]
    omega
  · simp only [if_neg hlt]
    omega

/-- Witness for anchor_resolution at day 6 (a Sunday) 10:00 resolving
    Wednesday. -/
theorem anchor_resolution_witness :
    dayMap ("wednesday".toList) = some 2 ∧
    dayFloor 8645 ≤ resolveAnchor 8645 2 :=
  ⟨by decide,
    (anchor_resolution 8645 ("wednesday".toList) 2 (by decide)).2.1⟩

/-- C3 counterexample: when the anchor date combined with the time of
    day equals now exactly (so is less than or equal to now), the
    source's strict comparison does not push, no seven days are added,
    and the resolved datetime is not strictly in the future. -/
theorem pastpush_boundary_counterexample :
    combine (dayFloor 11280) 1200 = 11280 ∧
    pushIfPast (combine (dayFloor 11280) 1200) 11280 = 11280 ∧
    pushIfPast (combine (dayFloor 11280) 1200) 11280 ≠ 11280 + 10080 ∧
    ¬ 11280 < pushIfPast (combine (dayFloor 11280) 1200) 11280 := by
  decide

/-- C3 amended: the push happens exactly when the combined datetime is
    strictly before now, exactly once; the resolved datetime is never
    strictly before now, and is strictly in the future except in the
    boundary case of equality.  The hypothesis dayFloor now ≤ d holds
    for every anchor the engine produces (anchor_resolution). -/
theorem pastpush_amended (now d tod : Int) (hd : dayFloor now ≤ d)
    (h0 : 0 ≤ tod) (h1 : tod < 1440) :
    (combine d tod < now →
      pushIfPast (combine d tod) now = combine d tod + 10080) ∧
    (now ≤ combine d tod → pushIfPast (combine d tod) now = combine d tod) ∧
    now ≤ pushIfPast (combine d tod) now ∧
    (combine d tod ≠ now → now < pushIfPast (combine d tod) now) := by
  rw [dayFloor_eq] at hd
  simp only [pushIfPast, combine]
  split <;> omega

/-- Witness for pastpush_amended: one minute past the deadline pushes
    exactly one week. -/
theorem pastpush_amended_witness :
    dayFloor 11281 ≤ (7 : Int) ∧ (0 : Int) ≤ 1200 ∧ (1200 : Int) < 1440 ∧
    pushIfPast (combine 7 1200) 11281 = combine 7 1200 + 10080 :=
  ⟨by decide, by decide, by decide,
    (pastpush_amended 11281 7 1200 (by decide) (by decide) (by decide)).1
      (by decide)⟩

/-- C5 counterexample: a float duration of 5.5 minutes is truncated by
    int() to 5, which is in range, so the record's non-integer duration
    does not fall back to the default 120. -/
theorem duration_fallback_counterexample :
    durationField (some (.float (11 / 2))) 120 = 5 ∧
    durationField (some (.float (11 / 2))) 120 ≠ 120 := by
  norm_num [durationField, pyInt, ratTrunc]

/-- C5 amended: the duration used is the int() conversion of the
    record's value whenever that conversion succeeds (truncating
    floats) and lands in the range 0 exclusive to 1440 inclusive;
    otherwise the default 120.  The claim's examples 5000 and 0 both
    fall back; the float 5.5 truncates to 5 instead of falling back. -/
theorem duration_fallback_amended :
    (∀ v : Option Scalar,
      (∃ k : Int, pyInt (v.getD (.int 120)) = some k ∧ 0 < k ∧ k ≤ 1440 ∧
        durationField v 120 = k) ∨
      ((∀ k : Int, pyInt (v.getD (.int 120)) = some k → k ≤ 0 ∨ 1440 < k) ∧
        durationField v 120 = 120)) ∧
    durationField (some (.int 5000)) 120 = 120 ∧
    durationField (some (.int 0)) 120 = 120 ∧
    durationField (some (.float (11 / 2))) 120 = 5 := by
  refine ⟨fun v => ?_, by decide, by decide,
    by norm_num [durationField, pyInt, ratTrunc]⟩
  unfold durationField
  cases h : pyInt (v.getD (.int 120)) with
  | none => exact Or.inr ⟨fun k hk => by simp at hk, rfl⟩
  | some n =>
    by_cases hn : n ≤ 0 ∨ 1440 < n
    · refine Or.inr ⟨fun k hk => by injection hk with h2; exact h2 ▸ hn, ?_⟩
      rcases hn with hn | hn <;> simp [hn]
    · push_neg at hn
      refine Or.inl ⟨n, rfl, hn.1, hn.2, ?_⟩
      have h1 : ¬ n ≤ 0 := by omega
      have h2 : ¬ 1440 < n := by omega
      simp [h1, h2]

/-- C10: classification is total over non-string things values, which
    degrade to their str() rendering as untimed plain tasks, and an
    activity record with neither item nor title field classifies with
    the title Untitled. -/
theorem classify_total :
    (∀ v : Scalar, (∀ s, v ≠ .str s) →
      parse_item_with_time v = (pyStr v, none, false)) ∧
    (∀ (timef durf : Option Scalar) (dt : Option (Nat × Nat)) (dd : Int),
      (parse_activity_with_time (.record none none timef durf) dt dd).1 =
        .str ("Untitled".toList)) := by
  constructor
  · intro v hv
    cases v with
    | str s => exact absurd rfl (hv s)
    | int n => rfl
    | float q => rfl
    | pynone => rfl
  · intro timef durf dt dd
    rfl

/-- Witness for classify_total at the integer 7 and the empty
    record. -/
theorem classify_total_witness :
    (∀ s, Scalar.int 7 ≠ .str s) ∧
    parse_item_with_time (.int 7) = ("7".toList, none, false) ∧
    (parse_activity_with_time (.record none none none none)
        (some (19, 0)) 120).1 = .str ("Untitled".toList) := by
  refine ⟨fun s h => ?_, ?_, ?_⟩
  · cases h
  · have h7 := classify_total.1 (.int 7) (fun s h => by cases h)
    rw [h7]
    decide
  · exact classify_total.2 none none (some (19, 0)) 120

/-- C7: when the My Stuff task list is absent from the sink, createtask
    returns the zero statistics and performs no write on either sink:
    the remote state is returned untouched. -/
theorem missing_tasklist_fail_fast (now : Int) (foodCal : List Char)
    (fails : Nat → Nat → Nat → Bool) (plan : WeekPlan) (s : RemoteState)
    (h : ("My Stuff".toList) ∉ s.taskListTitles) :
    createtask now foodCal fails plan s = (zeroStats, s) := by
  unfold createtask
  by_cases he : s.taskListTitles.isEmpty = true
  · rw [if_pos he]
  · have hc : s.taskListTitles.contains ("My Stuff".toList) = false := by
      simpa using h
    rw [if_neg he, if_pos (by rw [hc]; rfl)]

/-- Witness for missing_tasklist_fail_fast on a state holding only an
    unrelated task list. -/
theorem missing_tasklist_fail_fast_witness :
    ("My Stuff".toList) ∉ [("Other".toList)] ∧
    createtask 0 [] noFail [] ⟨[("Other".toList)], [], fun _ => []⟩ =
      (zeroStats, ⟨[("Other".toList)], [], fun _ => []⟩) := by
  constructor
  · decide
  · exact missing_tasklist_fail_fast 0 [] noFail []
      ⟨[("Other".toList)], [], fun _ => []⟩ (by decide)

lemma splitHour_sound (s : List Char) (h : Nat) (r : List Char)
    (hs : splitHour s = some (h, r)) :
    ∃ hd, s = hd ++ ':' :: r ∧ IsDigits hd ∧
      (hd.length = 1 ∨ hd.length = 2) ∧ digitsVal hd = h := by
  match s with
  | [] => simp [splitHour] at hs
  | [c1] => simp [splitHour] at hs
  | c1 :: c2 :: rest =>
    simp only [splitHour] at hs
    by_cases h1 : isDig c1 = true
    · rw [if_pos h1] at hs
      by_cases h2 : isDig c2 = true
      · rw [if_pos h2] at hs
        cases rest with
        | nil => simp at hs
        | cons c3 r2 =>
          dsimp only at hs
          by_cases h3 : c3 = ':'
          · rw [if_pos h3] at hs
            injection hs with hs2
            obtain ⟨hh, hr⟩ := Prod.mk.inj hs2
            subst hh
            subst hr
            refine ⟨[c1, c2], ?_, ?_, Or.inr rfl, ?_⟩
            · simp [h3]
            · intro c hc
              simp only [List.mem_cons, List.not_mem_nil, or_false] at hc
              rcases hc with rfl | rfl <;> assumption
            · simp [digitsVal]
          · rw [if_neg h3] at hs
            cases hs
      · rw [if_neg h2] at hs
        by_cases h3 : c2 = ':'
        · rw [if_pos h3] at hs
          injection hs with hs2
          obtain ⟨hh, hr⟩ := Prod.mk.inj hs2
          subst hh
          subst hr
          refine ⟨[c1], ?_, ?_, Or.inl rfl, ?_⟩
          · simp [h3]
          · intro c hc
            simp only [List.mem_cons, List.not_mem_nil, or_false] at hc
            rcases hc with rfl
            assumption
          · simp [digitsVal]
        · rw [if_neg h3] at hs
          cases hs
    · rw [if_neg h1] at hs
      cases hs

lemma splitHour_complete (hd r : List Char) (hdig : IsDigits hd)
    (hlen : hd.length = 1 ∨ hd.length = 2) :
    splitHour (hd ++ ':' :: r) = some (digitsVal hd, r) := by
  rcases hlen with hlen | hlen
  · match hd, hlen with
    | [c1], _ =>
      have h1 : isDig c1 = true := hdig c1 (by simp)
      have hc : isDig ':' = false := by decide
      simp [splitHour, h1, hc, digitsVal]
  · match hd, hlen with
    | [c1, c2], _ =>
      have h1 : isDig c1 = true := hdig c1 (by simp)
      have h2 : isDig c2 = true := hdig c2 (by simp)
      simp [splitHour, h1, h2, digitsVal]

lemma splitMin_sound (s : List Char) (m : Nat) (r : List Char)
    (hs : splitMin s = some (m, r)) :
    ∃ md, s = md ++ r ∧ IsDigits md ∧ md.length = 2 ∧ digitsVal md = m := by
  match s with
  | [] => simp [splitMin] at hs
  | [c1] => simp [splitMin] at hs
  | c1 :: c2 :: rest =>
    simp only [splitMin] at hs
    by_cases h12 : (isDig c1 && isDig c2) = true
    · rw [if_pos h12] at hs
      injection hs with hs2
      obtain ⟨hm, hr⟩ := Prod.mk.inj hs2
      subst hm
      subst hr
      obtain ⟨ha, hb⟩ := Bool.and_eq_true _ _ |>.mp h12
      refine ⟨[c1, c2], rfl, ?_, rfl, ?_⟩
      · intro c hc
        simp only [List.mem_cons, List.not_mem_nil, or_false] at hc
        rcases hc with rfl | rfl <;> assumption
      · simp [digitsVal]
    · rw [if_neg h12] at hs
      cases hs

lemma splitMin_complete (md r : List Char) (hdig : IsDigits md)
    (hlen : md.length = 2) :
    splitMin (md ++ r) = some (digitsVal md, r) := by
  match md, hlen with
  | [c1, c2], _ =>
    have h1 : isDig c1 = true := hdig c1 (by simp)
    have h2 : isDig c2 = true := hdig c2 (by simp)
    simp [splitMin, h1, h2, digitsVal]

lemma skipWs_append (w : List Char) (c : Char) (r : List Char)
    (hw : IsWsList w) (hc : isWs c = false) :
    skipWs (w ++ c :: r) = c :: r := by
  induction w with
  | nil => simp [skipWs, hc]
  | cons a w ih =>
    have ha : isWs a = true := hw a (by simp)
    have hw2 : IsWsList w := fun x hx => hw x (by simp [hx])
    simp [skipWs, ha, ih hw2]

lemma skipWs_decomp (s : List Char) :
    ∃ w, s = w ++ skipWs s ∧ IsWsList w := by
  induction s with
  | nil => exact ⟨[], rfl, fun c hc => by cases hc⟩
  | cons a r ih =>
    by_cases ha : isWs a = true
    · obtain ⟨w, hw1, hw2⟩ := ih
      refine ⟨a :: w, ?_, ?_⟩
      · simpa [skipWs, ha] using hw1
      · intro c hc
        simp only [List.mem_cons] at hc
        rcases hc with rfl | hc
        · exact ha
        · exact hw2 c hc
    · refine ⟨[], ?_, fun c hc => by cases hc⟩
      simp [skipWs, ha]

lemma afterDash_sound (s r : List Char) (hs : afterDash s = some r) :
    ∃ w, s = w ++ '-' :: r ∧ IsWsList w := by
  unfold afterDash at hs
  obtain ⟨w, hw1, hw2⟩ := skipWs_decomp s
  cases hsk : skipWs s with
  | nil => rw [hsk] at hs; cases hs
  | cons c rr =>
    rw [hsk] at hs
    dsimp only at hs
    by_cases hc : c = '-'
    · rw [if_pos hc] at hs
      injection hs with hs2
      exact ⟨w, by rw [hw1, hsk, hc, hs2], hw2⟩
    · rw [if_neg hc] at hs
      cases hs

lemma afterDash_complete (w r : List Char) (hw : IsWsList w) :
    afterDash (w ++ '-' :: r) = some r := by
  unfold afterDash
  rw [skipWs_append w '-' r hw (by decide)]
  rfl

lemma stripNl_of_no_nl (t : List Char) (ht : '\n' ∉ t) : stripNl t = t := by
  induction t with
  | nil => rfl
  | cons a r ih =>
    have ha : ¬ a = '\n' := fun hh => ht (by simp [hh])
    have hr : '\n' ∉ r := fun hh => ht (by simp [hh])
    simp only [stripNl]
    rw [if_neg (by intro hh; exact ha hh.2), ih hr]

lemma stripNl_append_nl (t : List Char) (hne : t ≠ []) (ht : '\n' ∉ t) :
    stripNl (t ++ ['\n']) = t := by
  induction t with
  | nil => exact absurd rfl hne
  | cons a r ih =>
    have ha : ¬ a = '\n' := fun hh => ht (by simp [hh])
    have hr : '\n' ∉ r := fun hh => ht (by simp [hh])
    cases r with
    | nil => simp [stripNl, ha]
    | cons b r2 =>
      have h1 : (a :: b :: r2) ++ ['\n'] = a :: ((b :: r2) ++ ['\n']) := rfl
      rw [h1]
      have h2 : stripNl (a :: ((b :: r2) ++ ['\n'])) =
          a :: stripNl ((b :: r2) ++ ['\n']) := by
        simp only [stripNl]
        rw [if_neg]
        intro hh
        exact ha hh.2
      rw [h2, ih (by simp) hr]

lemma stripNl_decomp (r : List Char) :
    r = stripNl r ∨ r = stripNl r ++ ['\n'] := by
  induction r with
  | nil => exact Or.inl rfl
  | cons a s ih =>
    simp only [stripNl]
    by_cases hc : s.isEmpty = true ∧ a = '\n'
    · rw [if_pos hc]
      right
      rw [List.isEmpty_iff.mp hc.1, hc.2]
      rfl
    · rw [if_neg hc]
      rcases ih with ih | ih
      · exact Or.inl (by rw [← ih])
      · right
        rw [List.cons_append, ← ih]

lemma tailTitle_sound (r t : List Char) (hs : tailTitle r = some t) :
    ∃ e, r = t ++ e ∧ t ≠ [] ∧ '\n' ∉ t ∧ (e = [] ∨ e = ['\n']) := by
  simp only [tailTitle] at hs
  by_cases hc : (!(stripNl r).isEmpty && !(stripNl r).contains '\n') = true
  · rw [if_pos hc] at hs
    injection hs with hs2
    rw [Bool.and_eq_true, Bool.not_eq_true', Bool.not_eq_true'] at hc
    obtain ⟨hc1, hc2⟩ := hc
    subst hs2
    have hne : stripNl r ≠ [] := by simpa using hc1
    have hnl : '\n' ∉ stripNl r := by simpa using hc2
    rcases stripNl_decomp r with hd | hd
    · exact ⟨[], by rw [List.append_nil]; exact hd, hne, hnl, Or.inl rfl⟩
    · exact ⟨['\n'], hd, hne, hnl, Or.inr rfl⟩
  · rw [if_neg hc] at hs
    cases hs

lemma tailTitle_complete (t e : List Char) (hne : t ≠ []) (ht : '\n' ∉ t)
    (he : e = [] ∨ e = ['\n']) : tailTitle (t ++ e) = some t := by
  have hstrip : stripNl (t ++ e) = t := by
    rcases he with rfl | rfl
    · rw [List.append_nil]
      exact stripNl_of_no_nl t ht
    · exact stripNl_append_nl t hne ht
  unfold tailTitle
  rw [hstrip, if_pos]
  rw [Bool.and_eq_true, Bool.not_eq_true', Bool.not_eq_true']
  constructor
  · simpa using hne
  · simpa using ht

lemma wsTail_sound (s : List Char) : ∀ t, wsTail s = some t →
    ∃ w e, s = w ++ t ++ e ∧ IsWsList w ∧ t ≠ [] ∧ '\n' ∉ t ∧
      (e = [] ∨ e = ['\n']) := by
  induction s with
  | nil => intro t hs; cases hs
  | cons c rest ih =>
    intro t hs
    simp only [wsTail] at hs
    by_cases hc : isWs c = true
    · rw [if_pos hc] at hs
      cases hr : wsTail rest with
      | some t2 =>
        rw [hr] at hs
        injection hs with hs2
        obtain ⟨w, e, h1, h2, h3, h4, h5⟩ := ih t2 hr
        subst hs2
        refine ⟨c :: w, e, by rw [h1]; rfl, ?_, h3, h4, h5⟩
        intro x hx
        rcases List.mem_cons.mp hx with rfl | hx
        · exact hc
        · exact h2 x hx
      | none =>
        rw [hr] at hs
        obtain ⟨e, h1, h2, h3, h4⟩ := tailTitle_sound _ _ hs
        refine ⟨[], e, ?_, fun x hx => absurd hx (List.not_mem_nil x), h2, h3, h4⟩
        rw [List.nil_append]
        exact h1
    · rw [if_neg hc] at hs
      obtain ⟨e, h1, h2, h3, h4⟩ := tailTitle_sound _ _ hs
      refine ⟨[], e, ?_, fun x hx => absurd hx (List.not_mem_nil x), h2, h3, h4⟩
      rw [List.nil_append]
      exact h1

lemma wsTail_complete (w : List Char) : ∀ t e, IsWsList w → t ≠ [] →
    '\n' ∉ t → (e = [] ∨ e = ['\n']) →
    ∃ t2, wsTail (w ++ t ++ e) = some t2 := by
  induction w with
  | nil =>
    intro t e hw hne ht he
    cases t with
    | nil => exact absurd rfl hne
    | cons c t2 =>
      have hshape : ([] : List Char) ++ (c :: t2) ++ e = c :: (t2 ++ e) := by
        simp
      rw [hshape]
      simp only [wsTail]
      by_cases hc : isWs c = true
      · rw [if_pos hc]
        cases hr : wsTail (t2 ++ e) with
        | some t3 => exact ⟨t3, rfl⟩
        | none =>
          refine ⟨c :: t2, ?_⟩
          have : (c :: t2) ++ e = c :: (t2 ++ e) := by simp
          rw [← this]
          exact tailTitle_complete _ _ hne ht he
      · rw [if_neg hc]
        refine ⟨c :: t2, ?_⟩
        have : (c :: t2) ++ e = c :: (t2 ++ e) := by simp
        rw [← this]
        exact tailTitle_complete _ _ hne ht he
  | cons a w2 ih =>
    intro t e hw hne ht he
    have ha : isWs a = true := hw a (by simp)
    have hw2 : IsWsList w2 := fun x hx => hw x (by simp [hx])
    obtain ⟨t2, h2⟩ := ih t e hw2 hne ht he
    refine ⟨t2, ?_⟩
    have hshape : (a :: w2) ++ t ++ e = a :: (w2 ++ t ++ e) := by simp
    rw [hshape]
    simp only [wsTail]
    rw [if_pos ha, h2]

lemma matchHHMM_sound (s : List Char) (h m : Nat) (t : List Char)
    (hs : matchHHMM s = some (h, m, t)) : TimeShape s h m t := by
  unfold matchHHMM at hs
  cases h1 : splitHour s with
  | none => rw [h1] at hs; cases hs
  | some p1 =>
    rw [h1] at hs
    obtain ⟨hv, r1⟩ := p1
    dsimp only at hs
    cases h2 : splitMin r1 with
    | none => rw [h2] at hs; cases hs
    | some p2 =>
      rw [h2] at hs
      obtain ⟨mv, r2⟩ := p2
      dsimp only at hs
      cases h3 : afterDash r2 with
      | none => rw [h3] at hs; cases hs
      | some r3 =>
        rw [h3] at hs
        dsimp only at hs
        cases h4 : wsTail r3 with
        | none => rw [h4] at hs; cases hs
        | some t2 =>
          rw [h4] at hs
          injection hs with hs2
          obtain ⟨hh, hmt⟩ := Prod.mk.inj hs2
          obtain ⟨hm2, ht2⟩ := Prod.mk.inj hmt
          subst hh
          subst hm2
          subst ht2
          obtain ⟨hd, e1, d1, d2, d3⟩ := splitHour_sound s _ _ h1
          obtain ⟨md, e2, d4, d5, d6⟩ := splitMin_sound r1 _ _ h2
          obtain ⟨w1, e3, d7⟩ := afterDash_sound r2 _ h3
          obtain ⟨w2, e, e4, d8, d9, d10, d11⟩ := wsTail_sound r3 _ h4
          refine ⟨hd, md, w1, w2, e, ?_, d1, d2, d4, d5, d7, d8, d9, d10,
            d11, d3, d6⟩
          rw [e1, e2, e3, e4]

lemma matchHHMM_complete (s : List Char) (h m : Nat) (t : List Char)
    (hsh : TimeShape s h m t) : ∃ t2, matchHHMM s = some (h, m, t2) := by
  obtain ⟨hd, md, w1, w2, e, hseq, d1, d2, d4, d5, d7, d8, d9, d10, d11,
    d3, d6⟩ := hsh
  obtain ⟨t2, ht2⟩ := wsTail_complete w2 t e d8 d9 d10 d11
  refine ⟨t2, ?_⟩
  unfold matchHHMM
  rw [hseq, splitHour_complete hd _ d1 d2]
  dsimp only
  rw [splitMin_complete md _ d4 d5]
  dsimp only
  rw [afterDash_complete w1 _ d7]
  dsimp only
  rw [ht2]
  dsimp only
  rw [d3, d6]

/-- C2: for every string, classification returns the remainder title,
    the parsed time and the timed flag exactly when the string has the
    shape of the time pattern with the hour and minute in range; in
    every other case (no match, or a match whose time is out of range)
    the whole original string comes back as an untimed plain task.  The
    three example strings of the claim behave as stated. -/
theorem time_classification :
    (∀ s : List Char,
      (∃ h m t, h ≤ 23 ∧ m ≤ 59 ∧ TimeShape s h m t ∧
        parse_item_with_time (.str s) = (t, some (h, m), true)) ∨
      ((¬ ∃ h m t, h ≤ 23 ∧ m ≤ 59 ∧ TimeShape s h m t) ∧
        parse_item_with_time (.str s) = (s, none, false))) ∧
    parse_item_with_time (.str ("14:30 - Pay rent".toList)) =
      ("Pay rent".toList, some (14, 30), true) ∧
    parse_item_with_time (.str ("Pay rent".toList)) =
      ("Pay rent".toList, none, false) ∧
    parse_item_with_time (.str ("99:99 - Bad".toList)) =
      ("99:99 - Bad".toList, none, false) := by
  refine ⟨?_, by decide, by decide, by decide⟩
  intro s
  cases hm : matchHHMM s with
  | none =>
    refine Or.inr ⟨?_, ?_⟩
    · rintro ⟨h, m, t, hr1, hr2, hsh⟩
      obtain ⟨t2, ht2⟩ := matchHHMM_complete s h m t hsh
      rw [hm] at ht2
      cases ht2
    · simp [parse_item_with_time, hm]
  | some p =>
    obtain ⟨h, m, t⟩ := p
    by_cases hr : h ≤ 23 ∧ m ≤ 59
    · refine Or.inl ⟨h, m, t, hr.1, hr.2, matchHHMM_sound s h m t hm, ?_⟩
      have hb : (decide (h ≤ 23) && decide (m ≤ 59)) = true := by
        simp [hr.1, hr.2]
      simp [parse_item_with_time, hm, hb]
    · refine Or.inr ⟨?_, ?_⟩
      · rintro ⟨h2, m2, t2, hr1, hr2, hsh⟩
        obtain ⟨t3, ht3⟩ := matchHHMM_complete s h2 m2 t2 hsh
        rw [hm] at ht3
        injection ht3 with ht4
        obtain ⟨hh, hmt⟩ := Prod.mk.inj ht4
        obtain ⟨hm2, _⟩ := Prod.mk.inj hmt
        refine hr ⟨?_, ?_⟩
        · rw [hh]; exact hr1
        · rw [hm2]; exact hr2
      · have hb : (decide (h ≤ 23) && decide (m ≤ 59)) = false := by
          by_cases h23 : h ≤ 23
          · have hm59 : ¬ m ≤ 59 := fun hmm => hr ⟨h23, hmm⟩
            simp [h23, hm59]
          · simp [h23]
        simp [parse_item_with_time, hm, hb]

lemma dayStart_le_self (t : Int) : dayStart t ≤ t ∧ t < dayStart t + 1440 := by
  unfold dayStart
  rw [dayFloor_eq]
  omega

lemma eventExistsIn_iff (s : RemoteState) (cid : List Char) (lo hi : Int)
    (sum : Scalar) :
    eventExistsIn s cid lo hi sum = true ↔
      ∃ e ∈ s.cal cid, e.summary = sum ∧ lo ≤ e.stop ∧ e.start ≤ hi := by
  simp only [eventExistsIn, findInWindow, List.any_eq_true, List.mem_filter,
    overlaps, Bool.and_eq_true, decide_eq_true_eq]
  constructor
  · rintro ⟨e, ⟨he, h1, h2⟩, h3⟩
    exact ⟨e, he, h3, h1, h2⟩
  · rintro ⟨e, he, h3, h1, h2⟩
    exact ⟨e, ⟨he, h1, h2⟩, h3⟩

/-- C8 counterexample: an existing same-title event on the NEXT
    calendar day (Tuesday 10:00, timeline minute 12120, day 8) makes
    the engine skip a Monday activity (resolved to minute 11220,
    day 7), because the activity duplicate window extends to 23:59 of
    the following day; so same-calendar-day is not necessary for the
    duplicate decision. -/
theorem duplicate_identity_counterexample :
    (createtask (combine 6 600) ("food".toList) noFail
        [("monday".toList, ⟨none, none, none, none, [],
          [.scalar (.str ("Games".toList))]⟩)]
        ⟨["My Stuff".toList], [],
          fun c => if c = primaryCal then
            [⟨.str ("Games".toList), 12120, 12240⟩] else []⟩).1 =
      ⟨0, 0, 0, 0, 1⟩ ∧
    pushIfPast (combine (resolveAnchor (combine 6 600) 0) (19 * 60))
        (combine 6 600) = 11220 ∧
    dayFloor 12120 = 8 ∧
    dayFloor 11220 = 7 := by
  decide

/-- C8 amended: the engine's duplicate decision holds exactly when the
    queried calendar holds an event with the identical display summary
    whose span meets the query window; the window always covers the
    full local day of the candidate (so any same-day same-title event
    is a duplicate no matter its time of day), but the activity window
    extends through 23:59 of the following day, so some adjacent-day
    events are also treated as duplicates. -/
theorem duplicate_identity_amended (s : RemoteState) (cid : List Char)
    (dt : Int) (sum : Scalar) :
    (eventExistsIn s cid (dayWinLo dt) (actWinHi dt) sum = true ↔
      ∃ e ∈ s.cal cid, e.summary = sum ∧ dayWinLo dt ≤ e.stop ∧
        e.start ≤ actWinHi dt) ∧
    (eventExistsIn s cid (dayWinLo dt) (dayWinHi dt) sum = true ↔
      ∃ e ∈ s.cal cid, e.summary = sum ∧ dayWinLo dt ≤ e.stop ∧
        e.start ≤ dayWinHi dt) ∧
    (∀ e ∈ s.cal cid, e.summary = sum → e.start ≤ e.stop →
      dayFloor e.start = dayFloor dt →
      eventExistsIn s cid (dayWinLo dt) (dayWinHi dt) sum = true ∧
      eventExistsIn s cid (dayWinLo dt) (actWinHi dt) sum = true) := by
  refine ⟨eventExistsIn_iff s cid _ _ sum, eventExistsIn_iff s cid _ _ sum, ?_⟩
  intro e he hsum hspan hday
  obtain ⟨hlo, hhi⟩ := dayStart_le_self e.start
  have hlo2 : dayWinLo dt ≤ e.stop := by
    have : dayStart e.start = dayStart dt := by
      unfold dayStart
      rw [hday]
    unfold dayWinLo
    omega
  have hhi2 : e.start ≤ dayWinHi dt := by
    have : dayStart e.start = dayStart dt := by
      unfold dayStart
      rw [hday]
    unfold dayWinHi
    omega
  have hhi3 : e.start ≤ actWinHi dt := by
    have : dayStart e.start = dayStart dt := by
      unfold dayStart
      rw [hday]
    unfold actWinHi
    omega
  exact ⟨(eventExistsIn_iff s cid _ _ sum).mpr ⟨e, he, hsum, hlo2, hhi2⟩,
    (eventExistsIn_iff s cid _ _ sum).mpr ⟨e, he, hsum, hlo2, hhi3⟩⟩

/-- Witness for duplicate_identity_amended: a same-day event at another
    time of day triggers the duplicate decision. -/
theorem duplicate_identity_amended_witness :
    (⟨.str ("A".toList), 10140, 10200⟩ : Event) ∈
      [(⟨.str ("A".toList), 10140, 10200⟩ : Event)] ∧
    dayFloor 10140 = dayFloor 11220 ∧
    eventExistsIn ⟨[], [], fun _ => [⟨.str ("A".toList), 10140, 10200⟩]⟩
      primaryCal (dayWinLo 11220) (dayWinHi 11220) (.str ("A".toList)) =
      true := by
  refine ⟨by decide, by decide, ?_⟩
  exact ((duplicate_identity_amended
      ⟨[], [], fun _ => [⟨.str ("A".toList), 10140, 10200⟩]⟩ primaryCal
      11220 (.str ("A".toList))).2.2
    ⟨.str ("A".toList), 10140, 10200⟩ (by decide) rfl (by decide)
    (by decide)).1

/-- C9: the source never resets the whendue variable on an unknown day
    key, so the key funday (after a monday section) is not ignored: its
    plain item is created as a task carrying monday's stale due
    datetime (minute 11280 = Monday 20:00), contradicting the claim
    that unknown keys produce no creations.  The claim matches the
    spec's stated intent (unknown keys are ignored), so this is a
    defect of the code, not of the claim. -/
theorem unknown_day_key_bug :
    (createtask (combine 6 600) ("food".toList) noFail
        [("monday".toList,
          ⟨none, none, none, none, [.str ("Buy milk".toList)], []⟩),
         ("funday".toList,
          ⟨none, none, none, none, [.str ("Pay rent".toList)], []⟩)]
        ⟨["My Stuff".toList], [], fun _ => []⟩).1.tasks = 2 ∧
    (⟨"Pay rent".toList, some 11280⟩ : Task) ∈
      (createtask (combine 6 600) ("food".toList) noFail
        [("monday".toList,
          ⟨none, none, none, none, [.str ("Buy milk".toList)], []⟩),
         ("funday".toList,
          ⟨none, none, none, none, [.str ("Pay rent".toList)], []⟩)]
        ⟨["My Stuff".toList], [], fun _ => []⟩).2.tasks := by
  decide

/-- C6 counterexample: when the first of two things items fails (an
    injected sink failure), the failure is caught and the run
    continues — the second item is still created — but the failed item
    is NOT counted in the skipped statistic, which stays zero. -/
theorem item_failure_skip_counterexample :
    (createtask (combine 6 600) ("food".toList)
        (fun d c i => d == 0 && c == 0 && i == 0)
        [("monday".toList,
          ⟨none, none, none, none,
            [.str ("Buy milk".toList), .str ("Call mom".toList)], []⟩)]
        ⟨["My Stuff".toList], [], fun _ => []⟩).1.skipped = 0 ∧
    (createtask (combine 6 600) ("food".toList)
        (fun d c i => d == 0 && c == 0 && i == 0)
        [("monday".toList,
          ⟨none, none, none, none,
            [.str ("Buy milk".toList), .str ("Call mom".toList)], []⟩)]
        ⟨["My Stuff".toList], [], fun _ => []⟩).2.tasks =
      [⟨"Call mom".toList, some 11280⟩] := by
  decide

lemma doThing_noFail (c : Ctx) (due : Option Int) (wd : Option (Option Int))
    (d i : Nat) (it : Scalar) (st : RunSt) :
    doThing (noFailCtx c) due wd d i it st =
      match tryThing c due wd it st with
      | some st1 => st1
      | none => st := by
  unfold doThing
  rw [if_neg]
  · rfl
  · simp [noFailCtx, noFail]

lemma doActivity_noFail (c : Ctx) (due : Option Int)
    (wd : Option (Option Int)) (d i : Nat) (it : ActItem) (st : RunSt) :
    doActivity (noFailCtx c) due wd d i it st =
      match tryActivity c due wd it st with
      | some st1 => st1
      | none => st := by
  unfold doActivity
  rw [if_neg]
  · rfl
  · simp [noFailCtx, noFail]

lemma doThings_noFail_idx (c : Ctx) (due : Option Int)
    (wd : Option (Option Int)) (dayIdx : Nat) (its : List Scalar) :
    ∀ i j st, doThings (noFailCtx c) due wd dayIdx i its st =
      doThings (noFailCtx c) due wd dayIdx j its st := by
  induction its with
  | nil => intro i j st; rfl
  | cons it rest ih =>
    intro i j st
    simp only [doThings, doThing_noFail]
    exact ih (i + 1) (j + 1) _

lemma doActivities_noFail_idx (c : Ctx) (due : Option Int)
    (wd : Option (Option Int)) (dayIdx : Nat) (its : List ActItem) :
    ∀ i j st, doActivities (noFailCtx c) due wd dayIdx i its st =
      doActivities (noFailCtx c) due wd dayIdx j its st := by
  induction its with
  | nil => intro i j st; rfl
  | cons it rest ih =>
    intro i j st
    simp only [doActivities, doActivity_noFail]
    exact ih (i + 1) (j + 1) _

lemma doThings_filter (c : Ctx) (due : Option Int)
    (wd : Option (Option Int)) (dayIdx : Nat) (its : List Scalar) :
    ∀ idx st, doThings c due wd dayIdx idx its st =
      doThings (noFailCtx c) due wd dayIdx idx
        (dropFailsFrom (c.fails dayIdx 0) idx its) st := by
  induction its with
  | nil => intro idx st; rfl
  | cons it rest ih =>
    intro idx st
    by_cases hf : c.fails dayIdx 0 idx = true
    · have hL : doThing c due wd dayIdx idx it st = st := by
        unfold doThing
        rw [if_pos hf]
      simp only [doThings, hL, dropFailsFrom, if_pos hf]
      rw [ih (idx + 1) st]
      exact doThings_noFail_idx c due wd dayIdx _ (idx + 1) idx st
    · have hL : doThing c due wd dayIdx idx it st =
          doThing (noFailCtx c) due wd dayIdx idx it st := by
        rw [doThing_noFail]
        unfold doThing
        rw [if_neg hf]
      simp only [doThings, dropFailsFrom, if_neg hf]
      rw [hL, ih (idx + 1)]

lemma doActivities_filter (c : Ctx) (due : Option Int)
    (wd : Option (Option Int)) (dayIdx : Nat) (its : List ActItem) :
    ∀ idx st, doActivities c due wd dayIdx idx its st =
      doActivities (noFailCtx c) due wd dayIdx idx
        (dropFailsFrom (c.fails dayIdx 2) idx its) st := by
  induction its with
  | nil => intro idx st; rfl
  | cons it rest ih =>
    intro idx st
    by_cases hf : c.fails dayIdx 2 idx = true
    · have hL : doActivity c due wd dayIdx idx it st = st := by
        unfold doActivity
        rw [if_pos hf]
      simp only [doActivities, hL, dropFailsFrom, if_pos hf]
      rw [ih (idx + 1) st]
      exact doActivities_noFail_idx c due wd dayIdx _ (idx + 1) idx st
    · have hL : doActivity c due wd dayIdx idx it st =
          doActivity (noFailCtx c) due wd dayIdx idx it st := by
        rw [doActivity_noFail]
        unfold doActivity
        rw [if_neg hf]
      simp only [doActivities, dropFailsFrom, if_neg hf]
      rw [hL, ih (idx + 1)]

lemma doMeal_filter (c : Ctx) (due : Option Int) (wd : Option (Option Int))
    (dayIdx slotIdx : Nat) (v? : Option Scalar) (tod : Int) (st : RunSt) :
    doMeal c due wd dayIdx slotIdx v? tod st =
      doMeal (noFailCtx c) due wd dayIdx slotIdx
        (if c.fails dayIdx 1 slotIdx then none else v?) tod st := by
  by_cases hf : c.fails dayIdx 1 slotIdx = true
  · rw [if_pos hf]
    cases v? with
    | none => rfl
    | some v =>
      unfold doMeal
      dsimp only
      by_cases ht : pyTruthy v = true
      · rw [if_pos ht, if_pos hf]
      · rw [if_neg ht]
  · rw [if_neg hf]
    cases v? with
    | none => rfl
    | some v =>
      unfold doMeal
      dsimp only
      by_cases ht : pyTruthy v = true
      · rw [if_pos ht, if_neg hf, if_pos ht, if_neg (show
          ¬ (noFailCtx c).fails dayIdx 1 slotIdx = true by
            simp [noFailCtx, noFail])]
        rfl
      · rw [if_neg ht, if_neg ht]

lemma doMeals_filter (c : Ctx) (due : Option Int) (wd : Option (Option Int))
    (dayIdx : Nat) (dp : DayPlan) (st : RunSt) :
    doMeals c due wd dayIdx dp st =
      doMeals (noFailCtx c) due wd dayIdx (filterDay c.fails dayIdx dp) st := by
  simp only [doMeals, filterDay]
  rw [doMeal_filter c due wd dayIdx 0, doMeal_filter c due wd dayIdx 1,
    doMeal_filter c due wd dayIdx 2, doMeal_filter c due wd dayIdx 3]

lemma doDay_filter (c : Ctx) (dayIdx : Nat) (key : List Char) (dp : DayPlan)
    (wd : Option (Option Int)) (st : RunSt) :
    doDay c dayIdx key dp wd st =
      doDay (noFailCtx c) dayIdx key (filterDay c.fails dayIdx dp) wd st := by
  unfold doDay
  dsimp only
  rw [show dayDue (noFailCtx c).now key wd = dayDue c.now key wd from rfl]
  rw [show (filterDay c.fails dayIdx dp).things =
        dropFailsFrom (c.fails dayIdx 0) 0 dp.things from rfl,
      show (filterDay c.fails dayIdx dp).activity =
        dropFailsFrom (c.fails dayIdx 2) 0 dp.activity from rfl,
      ← doThings_filter, ← doMeals_filter, ← doActivities_filter]

lemma doDays_filter (c : Ctx) (days : List (List Char × DayPlan)) :
    ∀ dayIdx wd st, doDays c dayIdx days wd st =
      doDays (noFailCtx c) dayIdx (filterPlan c.fails dayIdx days) wd st := by
  induction days with
  | nil => intro dayIdx wd st; rfl
  | cons kd rest ih =>
    intro dayIdx wd st
    obtain ⟨k, dp⟩ := kd
    simp only [doDays, filterPlan]
    rw [← doDay_filter, ih]

/-- C6 amended: a run with injected item failures equals the
    no-failure run on the plan with exactly the failing items removed:
    each failure is caught, contributes to no statistic (in particular
    not to skipped), and leaves every other item of the same day and of
    all later days with its exact original outcome. -/
theorem item_failure_isolation (now : Int) (foodCal : List Char)
    (fails : Nat → Nat → Nat → Bool) (plan : WeekPlan) (s : RemoteState) :
    createtask now foodCal fails plan s =
      createtask now foodCal noFail (filterPlan fails 0 plan) s := by
  unfold createtask
  by_cases he : s.taskListTitles.isEmpty = true
  · rw [if_pos he, if_pos he]
  · rw [if_neg he, if_neg he]
    by_cases hc : (!s.taskListTitles.contains ("My Stuff".toList)) = true
    · rw [if_pos hc, if_pos hc]
    · rw [if_neg hc, if_neg hc]
      have hd := doDays_filter ⟨now, foodCal, s.tasks.map Task.title, fails⟩
        plan 0 none ⟨zeroStats, s⟩
      exact congrArg (fun r : RunSt => (r.stats, r.remote)) hd

lemma doThing_intent (c : Ctx) (hf : ∀ a b k, c.fails a b k = false)
    (due : Option Int) (wd : Option (Option Int)) (d i : Nat) (it : Scalar)
    (st : RunSt) :
    doThing c due wd d i it st =
      applyIntent c st (thingIntent c.now due wd it) := by
  unfold doThing
  rw [if_neg (by simp [hf])]
  unfold tryThing thingIntent
  rcases hpp : parse_item_with_time it with ⟨title, tm, is_timed⟩
  dsimp only
  cases is_timed with
  | true =>
    rw [if_pos rfl, if_pos rfl]
    cases wd with
    | none => rfl
    | some w =>
      cases w with
      | none =>
        unfold tryPlain
        dsimp only
        by_cases hdup : (!c.titles0.isEmpty && c.titles0.contains title) = true
        · simp only [applyIntent, if_pos hdup]
        · simp only [applyIntent, if_neg hdup]
      | some dd =>
        cases due with
        | none => cases tm with | none => rfl | some hm => rfl
        | some d0 =>
          cases tm with
          | none => rfl
          | some hm =>
            rcases hm with ⟨hh, mm⟩
            dsimp only
            by_cases hdup : eventExistsIn st.remote primaryCal
                (dayWinLo (pushIfPast
                  (combine (dayFloor d0) ((hh : Int) * 60 + mm)) c.now))
                (dayWinHi (pushIfPast
                  (combine (dayFloor d0) ((hh : Int) * 60 + mm)) c.now))
                (.str (timedDisplay title)) = true
            · simp only [applyIntent, if_pos hdup]
            · simp only [applyIntent, if_neg hdup]
  | false =>
    rw [if_neg (by simp), if_neg (by simp)]
    cases wd with
    | none => rfl
    | some w =>
      unfold tryPlain
      dsimp only
      by_cases hdup : (!c.titles0.isEmpty && c.titles0.contains title) = true
      · simp only [applyIntent, if_pos hdup]
      · simp only [applyIntent, if_neg hdup]

lemma doMeal_intent (c : Ctx) (hf : ∀ a b k, c.fails a b k = false)
    (due : Option Int) (wd : Option (Option Int)) (d i : Nat)
    (v? : Option Scalar) (tod : Int) (st : RunSt) :
    doMeal c due wd d i v? tod st =
      applyIntent c st (mealIntent c.now due wd v? tod) := by
  unfold doMeal mealIntent
  cases v? with
  | none => rfl
  | some v =>
    dsimp only
    by_cases ht : pyTruthy v = true
    · rw [if_pos ht, if_pos ht, if_neg (by simp [hf])]
      unfold tryMeal
      cases wd with
      | none => rfl
      | some w =>
        cases w with
        | none => rfl
        | some dd =>
          cases due with
          | none => rfl
          | some d0 =>
            dsimp only
            by_cases hdup : eventExistsIn st.remote c.foodCal
                (dayWinLo (pushIfPast (combine (dayFloor d0) tod) c.now))
                (dayWinHi (pushIfPast (combine (dayFloor d0) tod) c.now))
                v = true
            · simp only [applyIntent, if_pos hdup]
            · simp only [applyIntent, if_neg hdup]
    · rw [if_neg ht, if_neg ht]
      rfl

lemma doActivity_intent (c : Ctx) (hf : ∀ a b k, c.fails a b k = false)
    (due : Option Int) (wd : Option (Option Int)) (d i : Nat) (v : ActItem)
    (st : RunSt) :
    doActivity c due wd d i v st =
      applyIntent c st (actIntent c.now due wd v) := by
  unfold doActivity
  rw [if_neg (by simp [hf])]
  unfold tryActivity actIntent
  rcases hpp : parse_activity_with_time v (some (19, 0)) 120 with
    ⟨title, tm, dur⟩
  dsimp only
  cases wd with
  | none => rfl
  | some w =>
    cases w with
    | none => rfl
    | some dd =>
      cases tm with
      | none => rfl
      | some hm =>
        rcases hm with ⟨hh, mm⟩
        cases due with
        | none => rfl
        | some d0 =>
          dsimp only
          by_cases hdup : eventExistsIn st.remote primaryCal
              (dayWinLo (pushIfPast
                (combine (dayFloor d0) ((hh : Int) * 60 + mm)) c.now))
              (actWinHi (pushIfPast
                (combine (dayFloor d0) ((hh : Int) * 60 + mm)) c.now))
              title = true
          · simp only [applyIntent, if_pos hdup]
          · simp only [applyIntent, if_neg hdup]

lemma doThings_intents (c : Ctx) (hf : ∀ a b k, c.fails a b k = false)
    (due : Option Int) (wd : Option (Option Int)) (d : Nat) :
    ∀ (its : List Scalar) (i : Nat) (st : RunSt),
    doThings c due wd d i its st =
      applyIntents c (its.map (thingIntent c.now due wd)) st := by
  intro its
  induction its with
  | nil => intro i st; rfl
  | cons it rest ih =>
    intro i st
    simp only [doThings, List.map_cons, applyIntents]
    rw [doThing_intent c hf, ih (i + 1)]

lemma doActivities_intents (c : Ctx) (hf : ∀ a b k, c.fails a b k = false)
    (due : Option Int) (wd : Option (Option Int)) (d : Nat) :
    ∀ (its : List ActItem) (i : Nat) (st : RunSt),
    doActivities c due wd d i its st =
      applyIntents c (its.map (actIntent c.now due wd)) st := by
  intro its
  induction its with
  | nil => intro i st; rfl
  | cons it rest ih =>
    intro i st
    simp only [doActivities, List.map_cons, applyIntents]
    rw [doActivity_intent c hf, ih (i + 1)]

lemma doMeals_intents (c : Ctx) (hf : ∀ a b k, c.fails a b k = false)
    (due : Option Int) (wd : Option (Option Int)) (d : Nat) (dp : DayPlan)
    (st : RunSt) :
    doMeals c due wd d dp st =
      applyIntents c
        [mealIntent c.now due wd dp.breakfast 450,
         mealIntent c.now due wd dp.lunch 690,
         mealIntent c.now due wd dp.dinner 1110,
         mealIntent c.now due wd dp.snack 900] st := by
  simp only [doMeals, applyIntents]
  rw [doMeal_intent c hf, doMeal_intent c hf, doMeal_intent c hf,
    doMeal_intent c hf]

lemma applyIntents_append (c : Ctx) :
    ∀ (L1 L2 : List Intent) (st : RunSt),
    applyIntents c (L1 ++ L2) st = applyIntents c L2 (applyIntents c L1 st) := by
  intro L1
  induction L1 with
  | nil => intro L2 st; rfl
  | cons i rest ih =>
    intro L2 st
    exact ih L2 (applyIntent c st i)

lemma doDay_intents (c : Ctx) (hf : ∀ a b k, c.fails a b k = false)
    (d : Nat) (key : List Char) (dp : DayPlan) (wd : Option (Option Int))
    (st : RunSt) :
    doDay c d key dp wd st =
      ((dayDue c.now key wd).2,
       applyIntents c (dayIntentList c.now key dp wd) st) := by
  unfold doDay dayIntentList
  dsimp only
  rw [applyIntents_append, applyIntents_append,
    doThings_intents c hf, doMeals_intents c hf, doActivities_intents c hf]

lemma doDays_intents (c : Ctx) (hf : ∀ a b k, c.fails a b k = false) :
    ∀ (days : List (List Char × DayPlan)) (d : Nat)
      (wd : Option (Option Int)) (st : RunSt),
    doDays c d days wd st =
      applyIntents c (planIntents c.now days wd) st := by
  intro days
  induction days with
  | nil => intro d wd st; rfl
  | cons kd rest ih =>
    intro d wd st
    obtain ⟨k, dp⟩ := kd
    simp only [doDays, planIntents]
    rw [applyIntents_append, doDay_intents c hf]
    dsimp only
    rw [ih]

lemma subRemote_refl (s : RemoteState) : SubRemote s s :=
  ⟨fun _ ht => ht, fun _ _ he => he⟩

lemma subRemote_trans {a b c : RemoteState} (h1 : SubRemote a b)
    (h2 : SubRemote b c) : SubRemote a c :=
  ⟨fun t ht => h2.1 t (h1.1 t ht),
   fun cid e he => h2.2 cid e (h1.2 cid e he)⟩

lemma insertEvent_sub (s : RemoteState) (cid : List Char) (e : Event) :
    SubRemote s (insertEvent s cid e) := by
  refine ⟨fun t ht => ht, fun c2 ev he => ?_⟩
  unfold insertEvent
  dsimp only
  by_cases hc : c2 = cid
  · rw [if_pos hc]
    exact List.mem_cons_of_mem _ he
  · rw [if_neg hc]
    exact he

lemma insertTask_sub (s : RemoteState) (t : Task) :
    SubRemote s (insertTask s t) :=
  ⟨fun _ ht => List.mem_cons_of_mem _ ht, fun _ _ he => he⟩

lemma applyIntent_sub (c : Ctx) (st : RunSt) (i : Intent) :
    SubRemote st.remote (applyIntent c st i).remote := by
  cases i with
  | nothing => exact subRemote_refl _
  | timedT title dt =>
    dsimp only [applyIntent]
    split
    · exact subRemote_refl _
    · exact insertEvent_sub _ _ _
  | plainT title w =>
    dsimp only [applyIntent]
    split
    · exact subRemote_refl _
    · exact insertTask_sub _ _
  | mealT v dt =>
    dsimp only [applyIntent]
    split
    · exact subRemote_refl _
    · exact insertEvent_sub _ _ _
  | actT title dt dur =>
    dsimp only [applyIntent]
    split
    · exact subRemote_refl _
    · exact insertEvent_sub _ _ _

lemma applyIntents_sub (c : Ctx) :
    ∀ (L : List Intent) (st : RunSt),
    SubRemote st.remote (applyIntents c L st).remote := by
  intro L
  induction L with
  | nil => intro st; exact subRemote_refl _
  | cons i rest ih =>
    intro st
    exact subRemote_trans (applyIntent_sub c st i) (ih (applyIntent c st i))

lemma eventExistsIn_mono {s s2 : RemoteState} (h : SubRemote s s2)
    (cid : List Char) (lo hi : Int) (sum : Scalar)
    (he : eventExistsIn s cid lo hi sum = true) :
    eventExistsIn s2 cid lo hi sum = true := by
  rw [eventExistsIn_iff] at he ⊢
  obtain ⟨e, hm, h1, h2, h3⟩ := he
  exact ⟨e, h.2 cid e hm, h1, h2, h3⟩

lemma covered_sub (foodCal : List Char) {s s2 : RemoteState}
    (h : SubRemote s s2) (i : Intent)
    (hc : covered (s.tasks.map Task.title) foodCal s i) :
    covered (s2.tasks.map Task.title) foodCal s2 i := by
  cases i with
  | nothing => trivial
  | timedT title dt => exact eventExistsIn_mono h _ _ _ _ hc
  | plainT title w =>
    show (s2.tasks.map Task.title).contains title = true
    have hc2 : (s.tasks.map Task.title).contains title = true := hc
    have hm : title ∈ s.tasks.map Task.title := by simpa using hc2
    obtain ⟨t, htm, hte⟩ := List.mem_map.mp hm
    have h2m : title ∈ s2.tasks.map Task.title :=
      List.mem_map.mpr ⟨t, h.1 t htm, hte⟩
    simpa using h2m
  | mealT v dt => exact eventExistsIn_mono h _ _ _ _ hc
  | actT title dt dur => exact eventExistsIn_mono h _ _ _ _ hc

lemma contains_isEmpty {titles : List (List Char)} {x : List Char}
    (h : titles.contains x = true) : titles.isEmpty = false := by
  cases titles with
  | nil => cases h
  | cons a r => rfl

lemma applyIntents_skips (c : Ctx) :
    ∀ (L : List Intent) (st : RunSt),
    (∀ i ∈ L, covered c.titles0 c.foodCal st.remote i) →
    applyIntents c L st =
      ⟨{ st.stats with skipped := st.stats.skipped + decidedCount L },
       st.remote⟩ := by
  intro L
  induction L with
  | nil =>
    intro st hcov
    obtain ⟨⟨t1, t2, t3, t4, t5⟩, rem⟩ := st
    simp [applyIntents, decidedCount]
  | cons i rest ih =>
    intro st hcov
    have hci := hcov i (List.mem_cons_self i rest)
    have hrest : ∀ j ∈ rest, covered c.titles0 c.foodCal st.remote j :=
      fun j hj => hcov j (List.mem_cons_of_mem i hj)
    cases i with
    | nothing =>
      show applyIntents c rest st = _
      rw [ih st hrest]
      rfl
    | timedT title dt =>
      have hc2 : eventExistsIn st.remote primaryCal (dayWinLo dt)
          (dayWinHi dt) (.str (timedDisplay title)) = true := hci
      show applyIntents c rest (applyIntent c st (.timedT title dt)) = _
      have hstep : applyIntent c st (.timedT title dt) =
          ⟨addSkipS st.stats, st.remote⟩ := by
        dsimp only [applyIntent]
        rw [if_pos hc2]
      rw [hstep, ih ⟨addSkipS st.stats, st.remote⟩ hrest]
      obtain ⟨⟨t1, t2, t3, t4, t5⟩, rem⟩ := st
      simp only [addSkipS, decidedCount]
      congr 2
      omega
    | plainT title w =>
      have hc2 : c.titles0.contains title = true := hci
      have hcond : (!c.titles0.isEmpty && c.titles0.contains title) = true := by
        rw [contains_isEmpty hc2, hc2]
        rfl
      show applyIntents c rest (applyIntent c st (.plainT title w)) = _
      have hstep : applyIntent c st (.plainT title w) =
          ⟨addSkipS st.stats, st.remote⟩ := by
        dsimp only [applyIntent]
        rw [if_pos hcond]
      rw [hstep, ih ⟨addSkipS st.stats, st.remote⟩ hrest]
      obtain ⟨⟨t1, t2, t3, t4, t5⟩, rem⟩ := st
      simp only [addSkipS, decidedCount]
      congr 2
      omega
    | mealT v dt =>
      have hc2 : eventExistsIn st.remote c.foodCal (dayWinLo dt)
          (dayWinHi dt) v = true := hci
      show applyIntents c rest (applyIntent c st (.mealT v dt)) = _
      have hstep : applyIntent c st (.mealT v dt) =
          ⟨addSkipS st.stats, st.remote⟩ := by
        dsimp only [applyIntent]
        rw [if_pos hc2]
      rw [hstep, ih ⟨addSkipS st.stats, st.remote⟩ hrest]
      obtain ⟨⟨t1, t2, t3, t4, t5⟩, rem⟩ := st
      simp only [addSkipS, decidedCount]
      congr 2
      omega
    | actT title dt dur =>
      have hc2 : eventExistsIn st.remote primaryCal (dayWinLo dt)
          (actWinHi dt) title = true := hci
      show applyIntents c rest (applyIntent c st (.actT title dt dur)) = _
      have hstep : applyIntent c st (.actT title dt dur) =
          ⟨addSkipS st.stats, st.remote⟩ := by
        dsimp only [applyIntent]
        rw [if_pos hc2]
      rw [hstep, ih ⟨addSkipS st.stats, st.remote⟩ hrest]
      obtain ⟨⟨t1, t2, t3, t4, t5⟩, rem⟩ := st
      simp only [addSkipS, decidedCount]
      congr 2
      omega

lemma applyIntent_covers_self (c : Ctx) (hE : c.titles0 = []) (st : RunSt) :
    ∀ i : Intent, IntentWF i →
    covered ((applyIntent c st i).remote.tasks.map Task.title) c.foodCal
      (applyIntent c st i).remote i := by
  intro i hwf
  cases i with
  | nothing => trivial
  | timedT title dt =>
    dsimp only [applyIntent]
    by_cases hdup : eventExistsIn st.remote primaryCal (dayWinLo dt)
        (dayWinHi dt) (.str (timedDisplay title)) = true
    · rw [if_pos hdup]
      exact hdup
    · rw [if_neg hdup]
      show eventExistsIn (insertEvent st.remote primaryCal
        ⟨.str (timedDisplay title), dt - 30, dt⟩) primaryCal (dayWinLo dt)
        (dayWinHi dt) (.str (timedDisplay title)) = true
      rw [eventExistsIn_iff]
      obtain ⟨hA, hB⟩ := dayStart_le_self dt
      refine ⟨⟨.str (timedDisplay title), dt - 30, dt⟩, ?_, rfl, ?_, ?_⟩
      · unfold insertEvent
        dsimp only
        rw [if_pos rfl]
        exact List.mem_cons_self _ _
      · show dayWinLo dt ≤ dt
        unfold dayWinLo
        omega
      · show dt - 30 ≤ dayWinHi dt
        unfold dayWinHi
        omega
  | plainT title w =>
    dsimp only [applyIntent]
    rw [hE, if_neg (by simp)]
    show (((insertTask st.remote ⟨title, w⟩).tasks).map Task.title).contains
      title = true
    unfold insertTask
    dsimp only
    simp
  | mealT v dt =>
    dsimp only [applyIntent]
    by_cases hdup : eventExistsIn st.remote c.foodCal (dayWinLo dt)
        (dayWinHi dt) v = true
    · rw [if_pos hdup]
      exact hdup
    · rw [if_neg hdup]
      show eventExistsIn (insertEvent st.remote c.foodCal ⟨v, dt, dt + 60⟩)
        c.foodCal (dayWinLo dt) (dayWinHi dt) v = true
      rw [eventExistsIn_iff]
      obtain ⟨hA, hB⟩ := dayStart_le_self dt
      refine ⟨⟨v, dt, dt + 60⟩, ?_, rfl, ?_, ?_⟩
      · unfold insertEvent
        dsimp only
        rw [if_pos rfl]
        exact List.mem_cons_self _ _
      · show dayWinLo dt ≤ dt + 60
        unfold dayWinLo
        omega
      · show dt ≤ dayWinHi dt
        unfold dayWinHi
        omega
  | actT title dt dur =>
    have hd : 0 < dur := hwf
    dsimp only [applyIntent]
    by_cases hdup : eventExistsIn st.remote primaryCal (dayWinLo dt)
        (actWinHi dt) title = true
    · rw [if_pos hdup]
      exact hdup
    · rw [if_neg hdup]
      show eventExistsIn (insertEvent st.remote primaryCal
        ⟨title, dt, dt + dur⟩) primaryCal (dayWinLo dt) (actWinHi dt)
        title = true
      rw [eventExistsIn_iff]
      obtain ⟨hA, hB⟩ := dayStart_le_self dt
      refine ⟨⟨title, dt, dt + dur⟩, ?_, rfl, ?_, ?_⟩
      · unfold insertEvent
        dsimp only
        rw [if_pos rfl]
        exact List.mem_cons_self _ _
      · show dayWinLo dt ≤ dt + dur
        unfold dayWinLo
        omega
      · show dt ≤ actWinHi dt
        unfold actWinHi
        omega

lemma applyIntents_covers (c : Ctx) (hE : c.titles0 = []) :
    ∀ (L : List Intent) (st : RunSt), (∀ i ∈ L, IntentWF i) →
    ∀ i ∈ L, covered ((applyIntents c L st).remote.tasks.map Task.title)
      c.foodCal (applyIntents c L st).remote i := by
  intro L
  induction L with
  | nil => intro st _ i hi; cases hi
  | cons j rest ih =>
    intro st hwf i hi
    show covered ((applyIntents c rest (applyIntent c st j)).remote.tasks.map
      Task.title) c.foodCal (applyIntents c rest (applyIntent c st j)).remote i
    rcases List.mem_cons.mp hi with rfl | hi2
    · exact covered_sub c.foodCal
        (applyIntents_sub c rest (applyIntent c st i)) i
        (applyIntent_covers_self c hE st i (hwf i hi))
    · exact ih (applyIntent c st j)
        (fun k hk => hwf k (List.mem_cons_of_mem _ hk)) i hi2

lemma parse_activity_dur_pos (v : ActItem) (tdef : Option (Nat × Nat)) :
    0 < (parse_activity_with_time v tdef 120).2.2 := by
  cases v with
  | record item title timef durf =>
    show 0 < durationField durf 120
    unfold durationField
    cases h : pyInt (durf.getD (.int 120)) with
    | none => norm_num
    | some n =>
      dsimp only
      by_cases hn : (decide (n ≤ 0) || decide (1440 < n)) = true
      · rw [if_pos hn]
        norm_num
      · rw [if_neg hn]
        simp only [Bool.or_eq_true, decide_eq_true_eq, not_or] at hn
        omega
  | scalar u =>
    dsimp only [parse_activity_with_time]
    cases hm : matchHHMM (pyStr u) with
    | none => norm_num
    | some p =>
      obtain ⟨h, m, t⟩ := p
      dsimp only
      by_cases hr : (decide (h ≤ 23) && decide (m ≤ 59)) = true
      · rw [if_pos hr]
        norm_num
      · rw [if_neg hr]
        norm_num

lemma thingIntent_wf (now : Int) (due : Option Int) (wd : Option (Option Int))
    (it : Scalar) : IntentWF (thingIntent now due wd it) := by
  unfold thingIntent
  rcases parse_item_with_time it with ⟨title, tm, is_timed⟩
  dsimp only
  cases is_timed with
  | true =>
    rw [if_pos rfl]
    cases wd with
    | none => trivial
    | some w =>
      cases w with
      | none => trivial
      | some dd =>
        cases due with
        | none =>
          cases tm with
          | none => trivial
          | some hm => trivial
        | some d0 =>
          cases tm with
          | none => trivial
          | some hm =>
            rcases hm with ⟨hh, mm⟩
            trivial
  | false =>
    rw [if_neg (by simp)]
    cases wd with
    | none => trivial
    | some w => trivial

lemma mealIntent_wf (now : Int) (due : Option Int) (wd : Option (Option Int))
    (v? : Option Scalar) (tod : Int) :
    IntentWF (mealIntent now due wd v? tod) := by
  unfold mealIntent
  cases v? with
  | none => trivial
  | some v =>
    dsimp only
    by_cases ht : pyTruthy v = true
    · rw [if_pos ht]
      cases wd with
      | none => trivial
      | some w =>
        cases w with
        | none => trivial
        | some dd =>
          cases due with
          | none => trivial
          | some d0 => trivial
    · rw [if_neg ht]
      trivial

lemma actIntent_wf (now : Int) (due : Option Int) (wd : Option (Option Int))
    (v : ActItem) : IntentWF (actIntent now due wd v) := by
  have hdur := parse_activity_dur_pos v (some (19, 0))
  unfold actIntent
  rcases hpp : parse_activity_with_time v (some (19, 0)) 120 with
    ⟨title, tm, dur⟩
  rw [hpp] at hdur
  dsimp only
  cases wd with
  | none => trivial
  | some w =>
    cases w with
    | none => trivial
    | some dd =>
      cases tm with
      | none => trivial
      | some hm =>
        rcases hm with ⟨hh, mm⟩
        cases due with
        | none => trivial
        | some d0 => exact hdur

lemma dayIntentList_wf (now : Int) (key : List Char) (dp : DayPlan)
    (wd : Option (Option Int)) :
    ∀ i ∈ dayIntentList now key dp wd, IntentWF i := by
  intro i hi
  unfold dayIntentList at hi
  dsimp only at hi
  rcases List.mem_append.mp hi with hi1 | hi2
  · rcases List.mem_append.mp hi1 with hia | hib
    · obtain ⟨x, _, rfl⟩ := List.mem_map.mp hia
      exact thingIntent_wf _ _ _ _
    · simp only [List.mem_cons, List.not_mem_nil, or_false] at hib
      rcases hib with rfl | rfl | rfl | rfl <;> exact mealIntent_wf _ _ _ _ _
  · obtain ⟨x, _, rfl⟩ := List.mem_map.mp hi2
    exact actIntent_wf _ _ _ _

lemma planIntents_wf (now : Int) :
    ∀ (days : List (List Char × DayPlan)) (wd : Option (Option Int)),
    ∀ i ∈ planIntents now days wd, IntentWF i := by
  intro days
  induction days with
  | nil => intro wd i hi; cases hi
  | cons kd rest ih =>
    intro wd i hi
    obtain ⟨k, dp⟩ := kd
    rcases List.mem_append.mp hi with hi1 | hi2
    · exact dayIntentList_wf now k dp wd i hi1
    · exact ih (dayDue now k wd).2 i hi2

lemma applyIntent_taskLists (c : Ctx) (st : RunSt) (i : Intent) :
    (applyIntent c st i).remote.taskListTitles = st.remote.taskListTitles := by
  cases i with
  | nothing => rfl
  | timedT title dt =>
    dsimp only [applyIntent]
    split <;> rfl
  | plainT title w =>
    dsimp only [applyIntent]
    split <;> rfl
  | mealT v dt =>
    dsimp only [applyIntent]
    split <;> rfl
  | actT title dt dur =>
    dsimp only [applyIntent]
    split <;> rfl

lemma applyIntents_taskLists (c : Ctx) :
    ∀ (L : List Intent) (st : RunSt),
    (applyIntents c L st).remote.taskListTitles =
      st.remote.taskListTitles := by
  intro L
  induction L with
  | nil => intro st; rfl
  | cons i rest ih =>
    intro st
    show (applyIntents c rest (applyIntent c st i)).remote.taskListTitles = _
    rw [ih (applyIntent c st i), applyIntent_taskLists]

lemma createtask_eq_intents (now : Int) (foodCal : List Char)
    (plan : WeekPlan) (s : RemoteState)
    (hne : s.taskListTitles.isEmpty = false)
    (hcontains : s.taskListTitles.contains ("My Stuff".toList) = true) :
    createtask now foodCal noFail plan s =
      ((applyIntents ⟨now, foodCal, s.tasks.map Task.title, noFail⟩
          (planIntents now plan none) ⟨zeroStats, s⟩).stats,
       (applyIntents ⟨now, foodCal, s.tasks.map Task.title, noFail⟩
          (planIntents now plan none) ⟨zeroStats, s⟩).remote) := by
  unfold createtask
  rw [if_neg (by rw [hne]; simp), if_neg (by rw [hcontains]; simp)]
  dsimp only
  rw [doDays_intents _ (fun _ _ _ => rfl)]

/-- C1: running createtask a second time, against the remote state the
    first run produced from an empty remote holding the My Stuff list,
    with the same plan and the same now, creates nothing: every created
    counter is zero, skipped equals the number of plan items processed
    to a create-or-duplicate decision, and the remote state comes back
    exactly unchanged. -/
theorem reconciliation_idempotent (plan : WeekPlan) (now : Int)
    (foodCal : List Char) :
    (createtask now foodCal noFail plan
        (createtask now foodCal noFail plan
          ⟨["My Stuff".toList], [], fun _ => []⟩).2).1 =
      ⟨0, 0, 0, 0, processedCount now plan⟩ ∧
    (createtask now foodCal noFail plan
        (createtask now foodCal noFail plan
          ⟨["My Stuff".toList], [], fun _ => []⟩).2).2 =
      (createtask now foodCal noFail plan
        ⟨["My Stuff".toList], [], fun _ => []⟩).2 := by
  have hA : createtask now foodCal noFail plan
      ⟨["My Stuff".toList], [], fun _ => []⟩ =
      ((applyIntents (⟨now, foodCal, [], noFail⟩ : Ctx)
          (planIntents now plan none)
          ⟨zeroStats, ⟨["My Stuff".toList], [], fun _ => []⟩⟩).stats,
       (applyIntents (⟨now, foodCal, [], noFail⟩ : Ctx)
          (planIntents now plan none)
          ⟨zeroStats, ⟨["My Stuff".toList], [], fun _ => []⟩⟩).remote) :=
    createtask_eq_intents now foodCal plan
      ⟨["My Stuff".toList], [], fun _ => []⟩ rfl rfl
  rw [hA]
  dsimp only
  have hTL : (applyIntents (⟨now, foodCal, [], noFail⟩ : Ctx)
      (planIntents now plan none)
      ⟨zeroStats, ⟨["My Stuff".toList], [], fun _ => []⟩⟩).remote.taskListTitles =
      ["My Stuff".toList] :=
    applyIntents_taskLists (⟨now, foodCal, [], noFail⟩ : Ctx)
      (planIntents now plan none)
      ⟨zeroStats, ⟨["My Stuff".toList], [], fun _ => []⟩⟩
  have hB : createtask now foodCal noFail plan
      (applyIntents (⟨now, foodCal, [], noFail⟩ : Ctx)
        (planIntents now plan none)
        ⟨zeroStats, ⟨["My Stuff".toList], [], fun _ => []⟩⟩).remote =
      ((applyIntents (⟨now, foodCal,
          (applyIntents (⟨now, foodCal, [], noFail⟩ : Ctx)
            (planIntents now plan none)
            ⟨zeroStats, ⟨["My Stuff".toList], [],
              fun _ => []⟩⟩).remote.tasks.map Task.title, noFail⟩ : Ctx)
          (planIntents now plan none)
          ⟨zeroStats, (applyIntents (⟨now, foodCal, [], noFail⟩ : Ctx)
            (planIntents now plan none)
            ⟨zeroStats, ⟨["My Stuff".toList], [],
              fun _ => []⟩⟩).remote⟩).stats,
       (applyIntents (⟨now, foodCal,
          (applyIntents (⟨now, foodCal, [], noFail⟩ : Ctx)
            (planIntents now plan none)
            ⟨zeroStats, ⟨["My Stuff".toList], [],
              fun _ => []⟩⟩).remote.tasks.map Task.title, noFail⟩ : Ctx)
          (planIntents now plan none)
          ⟨zeroStats, (applyIntents (⟨now, foodCal, [], noFail⟩ : Ctx)
            (planIntents now plan none)
            ⟨zeroStats, ⟨["My Stuff".toList], [],
              fun _ => []⟩⟩).remote⟩).remote) :=
    createtask_eq_intents now foodCal plan
      (applyIntents (⟨now, foodCal, [], noFail⟩ : Ctx)
        (planIntents now plan none)
        ⟨zeroStats, ⟨["My Stuff".toList], [], fun _ => []⟩⟩).remote
      (by rw [hTL]; rfl) (by rw [hTL]; decide)
  rw [hB]
  dsimp only
  have hcov := applyIntents_covers (⟨now, foodCal, [], noFail⟩ : Ctx) rfl
    (planIntents now plan none)
    ⟨zeroStats, ⟨["My Stuff".toList], [], fun _ => []⟩⟩
    (planIntents_wf now plan none)
  have hskip := applyIntents_skips
    (⟨now, foodCal,
      (applyIntents (⟨now, foodCal, [], noFail⟩ : Ctx)
        (planIntents now plan none)
        ⟨zeroStats, ⟨["My Stuff".toList], [], fun _ => []⟩⟩).remote.tasks.map
          Task.title, noFail⟩ : Ctx)
    (planIntents now plan none)
    ⟨zeroStats,
      (applyIntents (⟨now, foodCal, [], noFail⟩ : Ctx)
        (planIntents now plan none)
        ⟨zeroStats, ⟨["My Stuff".toList], [], fun _ => []⟩⟩).remote⟩
    hcov
  rw [hskip]
  constructor
  · show ({ zeroStats with skipped :=
        zeroStats.skipped + decidedCount (planIntents now plan none) } :
        Stats) = ⟨0, 0, 0, 0, processedCount now plan⟩
    unfold processedCount zeroStats
    simp
  · rfl

end ReadTheWeek
